import Mathlib

/-!
Shallow embedding, in Lean 4, of the core of the stcpp preprocessor:

* `src/src/exprint.c` — the recursive-descent evaluator for `#if`/`#elif`
  integer constant expressions (`evaluate_expression` and the `parse_*`
  family, with the process-wide `expr_error` modelled as explicitly
  threaded state);
* `src/src/macro.c`  — the macro table (`addMacro`, `deleteMacro`,
  `banMacro`, `findMacro`, `isdefinedMacro`) and the in-place buffer
  substitution engine (`replaceBuf`, `processMacro`, `processBuffer`,
  `removeDoubleHash`, `stringifyParameter`, the `skip*` scanners);
* `src/src/cmdline.c` — `stripspaces`, `check_defined`, `evalifexpr` and
  the conditional-directive state machine `processcmdline`.

Modelling conventions.  C strings are `List Char` (the characters before
the terminating NUL; the buffers in play never hold an interior NUL).
A mutable buffer of capacity `cap` is a content list plus Nat positions;
a read past the current content yields NUL (the tool zero-fills its line
buffers before use; C itself would read indeterminate bytes there).
`result_t` (C `long`) is modelled as unbounded `Int`; 64-bit wrap-around
of `+ - *` is not modelled (no claim touches it), but the genuinely
trapping undefined behaviours of the evaluator — modulo by zero and an
out-of-range shift — set an explicit `ub` flag in the threaded state.
Loops whose termination is not structural take an explicit fuel argument;
every call site passes a fuel that provably or evidently dominates the
loop (the one exception is `processBuffer`, whose fuel is the subject of
a non-termination theorem below).
-/

set_option maxRecDepth 100000

namespace Stcpp

/-- ASCII NUL, the C string terminator. -/
def NUL : Char := Char.ofNat 0

/-- C `isspace` over ASCII: blank, tab, newline, vertical tab, form feed,
carriage return. -/
def isspace (c : Char) : Bool :=
  c = ' ' || c = '\t' || c = '\n' || c = Char.ofNat 11 || c = Char.ofNat 12 || c = '\r'

/-- C `isdigit`. -/
def isdigit (c : Char) : Bool :=
  48 ≤ c.toNat && c.toNat ≤ 57

/-- C `isalpha` over ASCII. -/
def isalpha (c : Char) : Bool :=
  (65 ≤ c.toNat && c.toNat ≤ 90) || (97 ≤ c.toNat && c.toNat ≤ 122)

/-- C `isalnum` over ASCII. -/
def isalnum (c : Char) : Bool :=
  isalpha c || isdigit c

/-- C `isxdigit` over ASCII. -/
def isxdigit (c : Char) : Bool :=
  isdigit c || (97 ≤ c.toNat && c.toNat ≤ 102) || (65 ≤ c.toNat && c.toNat ≤ 70)

/-- C `tolower` over ASCII. -/
def tolower (c : Char) : Char :=
  if 65 ≤ c.toNat && c.toNat ≤ 90 then Char.ofNat (c.toNat + 32) else c

/-- `isIdent` from macro.c: identifier characters, with the index-0 case
restricted to letters and underscore. -/
def isIdent (c : Char) (idx : Int) : Bool :=
  if idx < 0 || c = NUL then false
  else if 0 < idx then isalnum c || c = '_' else isalpha c || c = '_'

/-- `*p` on the cursor of a C string: the next character, or NUL at the end. -/
def peekc : List Char → Char
  | [] => NUL
  | c :: _ => c

/-- `*(p + 1)` on the cursor of a C string. -/
def peek2 : List Char → Char
  | _ :: c :: _ => c
  | _ => NUL

/-! ## exprint.c — the expression evaluator

`expr_error` (a process-wide global in the C) is threaded explicitly as
`ESt.err`; `ESt.ub` records that the run executed an operation that is
undefined behaviour in C (modulo by zero, out-of-range shift), which the
C binary would not survive. -/

def EE_OK : Int := 0
def EE_INVALDIGIT : Int := 1
def EE_UNEXPECTEDCHAR : Int := 2
def EE_MISSINGPAREN : Int := 3
def EE_MISSINGCOLON : Int := 4
def EE_DIVBYZERO : Int := 5

/-- The evaluator's side state: the `expr_error` global and the
undefined-behaviour marker. -/
structure ESt where
  err : Int
  ub : Bool
deriving DecidableEq, Repr

/-- Result of one `parse_*` function: value, rest of the text (the
advanced `*expr` cursor), updated side state. -/
structure PRes where
  val : Int
  rest : List Char
  st : ESt
deriving DecidableEq, Repr

/-- `set_error`: records the error code and yields 0. -/
def set_error (st : ESt) (e : Int) : Int × ESt :=
  (0, { st with err := e })

/-- C truth value of an `Int`. -/
def boolInt (b : Bool) : Int := if b then 1 else 0

/-- C `<<` on `long`: out-of-range shift counts and a negative left
operand are undefined behaviour. -/
def cShl (a b : Int) (st : ESt) : Int × ESt :=
  if b < 0 || 64 ≤ b || a < 0 then (0, { st with ub := true })
  else (a * 2 ^ b.toNat, st)

/-- C `>>` on `long`: arithmetic shift (gcc), undefined for an
out-of-range count. -/
def cShr (a b : Int) (st : ESt) : Int × ESt :=
  if b < 0 || 64 ≤ b then (0, { st with ub := true })
  else (Int.shiftRight a b.toNat, st)

/-- C `%` as executed with no zero check (`result %= rhs` in
`parse_multiplicative`): modulo by zero traps, marked as `ub`. -/
def cModRaw (a b : Int) (st : ESt) : Int × ESt :=
  if b = 0 then (0, { st with ub := true })
  else (Int.tmod a b, st)

/-- Value of a digit character as exprint.c computes it. -/
def digitVal (c : Char) : Int :=
  if isdigit c then (c.toNat : Int) - 48 else ((tolower c).toNat : Int) - 97 + 10

/-- The digit loop of `parse_number`: on a digit out of range for the
base, `set_error(EE_INVALDIGIT)` makes the result 0 and the loop breaks
without consuming the bad digit. -/
def numloop (base : Int) : List Char → Int → ESt → Int × List Char × ESt
  | [], acc, st => (acc, [], st)
  | c :: s, acc, st =>
    if isxdigit c then
      if base ≤ digitVal c then (0, c :: s, { st with err := EE_INVALDIGIT })
      else numloop base s (acc * base + digitVal c) st
    else (acc, c :: s, st)

/-- `parse_number`: base prefix detection (`0x`/`0X`, `0b`/`0B`, leading
`0` = octal), digit loop, then one optional `u/U/l/L` suffix character. -/
def parse_number (s : List Char) (st : ESt) : PRes :=
  let bs : Int × List Char :=
    if peekc s = '0' then
      let s' := s.tail
      if peekc s' = 'x' || peekc s' = 'X' then (16, s'.tail)
      else if peekc s' = 'b' || peekc s' = 'B' then (2, s'.tail)
      else (8, s')
    else (10, s)
  let r := numloop bs.1 bs.2 0 st
  let s3 := if peekc r.2.1 = 'u' || peekc r.2.1 = 'U' || peekc r.2.1 = 'l' ||
               peekc r.2.1 = 'L' then r.2.1.tail else r.2.1
  ⟨r.1, s3, r.2.2⟩

/-- A C `char` read into a wider integer: `char` is signed on the target. -/
def signedChar (c : Char) : Int :=
  if c.toNat < 128 then c.toNat else (c.toNat : Int) - 256

/-- `parse_char_constant` exactly as written: skip the opening quote,
take the very next character as the value, then skip a closing quote if
one is present.  There is no escape processing of any kind. -/
def parse_char_constant (s : List Char) (st : ESt) : PRes :=
  if peekc s = '\'' then
    let s1 := s.tail
    let v := signedChar (peekc s1)
    let s2 := s1.tail
    if peekc s2 = '\'' then ⟨v, s2.tail, st⟩ else ⟨v, s2, st⟩
  else ⟨0, s, st⟩

/-- The whitespace skip at the head of `parse_primary`. -/
def skipws : List Char → List Char
  | [] => []
  | c :: s => if isspace c then skipws s else c :: s

/-! The mutually recursive `parse_*` family of exprint.c, with a fuel
argument decremented at every call (the C recursion is bounded by the
input length; `evaluate_expression` below supplies a dominating fuel).
Each binary-operator loop hands its right operand to `parse_ternary`,
exactly as the C does. -/
mutual

def parse_ternary : Nat → List Char → ESt → PRes
  | 0, s, st => ⟨0, s, { st with ub := true }⟩
  | f + 1, s, st =>
    let r := parse_logical_or f s st
    if peekc r.rest = '?' then
      let t := parse_ternary f r.rest.tail r.st
      if peekc t.rest = ':' then
        let e := parse_ternary f t.rest.tail t.st
        ⟨if r.val ≠ 0 then t.val else e.val, e.rest, e.st⟩
      else
        let v := set_error t.st EE_MISSINGCOLON
        ⟨v.1, t.rest, v.2⟩
    else r

def parse_logical_or : Nat → List Char → ESt → PRes
  | 0, s, st => ⟨0, s, { st with ub := true }⟩
  | f + 1, s, st => lor_loop f (parse_logical_and f s st)

def lor_loop : Nat → PRes → PRes
  | 0, r => ⟨r.val, r.rest, { r.st with ub := true }⟩
  | f + 1, r =>
    if peekc r.rest = '|' && peek2 r.rest = '|' then
      let rhs := parse_ternary f (r.rest.drop 2) r.st
      lor_loop f ⟨boolInt (r.val ≠ 0 || rhs.val ≠ 0), rhs.rest, rhs.st⟩
    else r

def parse_logical_and : Nat → List Char → ESt → PRes
  | 0, s, st => ⟨0, s, { st with ub := true }⟩
  | f + 1, s, st => land_loop f (parse_bitwise_or f s st)

def land_loop : Nat → PRes → PRes
  | 0, r => ⟨r.val, r.rest, { r.st with ub := true }⟩
  | f + 1, r =>
    if peekc r.rest = '&' && peek2 r.rest = '&' then
      let rhs := parse_ternary f (r.rest.drop 2) r.st
      land_loop f ⟨boolInt (r.val ≠ 0 && rhs.val ≠ 0), rhs.rest, rhs.st⟩
    else r

def parse_bitwise_or : Nat → List Char → ESt → PRes
  | 0, s, st => ⟨0, s, { st with ub := true }⟩
  | f + 1, s, st => bor_loop f (parse_bitwise_xor f s st)

def bor_loop : Nat → PRes → PRes
  | 0, r => ⟨r.val, r.rest, { r.st with ub := true }⟩
  | f + 1, r =>
    if peekc r.rest = '|' && !(peek2 r.rest = '|') then
      let rhs := parse_ternary f r.rest.tail r.st
      bor_loop f ⟨Int.lor r.val rhs.val, rhs.rest, rhs.st⟩
    else r

def parse_bitwise_xor : Nat → List Char → ESt → PRes
  | 0, s, st => ⟨0, s, { st with ub := true }⟩
  | f + 1, s, st => bxor_loop f (parse_bitwise_and f s st)

def bxor_loop : Nat → PRes → PRes
  | 0, r => ⟨r.val, r.rest, { r.st with ub := true }⟩
  | f + 1, r =>
    if peekc r.rest = '^' then
      let rhs := parse_ternary f r.rest.tail r.st
      bxor_loop f ⟨Int.xor r.val rhs.val, rhs.rest, rhs.st⟩
    else r

def parse_bitwise_and : Nat → List Char → ESt → PRes
  | 0, s, st => ⟨0, s, { st with ub := true }⟩
  | f + 1, s, st => band_loop f (parse_equality f s st)

def band_loop : Nat → PRes → PRes
  | 0, r => ⟨r.val, r.rest, { r.st with ub := true }⟩
  | f + 1, r =>
    if peekc r.rest = '&' && !(peek2 r.rest = '&') then
      let rhs := parse_ternary f r.rest.tail r.st
      band_loop f ⟨Int.land r.val rhs.val, rhs.rest, rhs.st⟩
    else r

def parse_equality : Nat → List Char → ESt → PRes
  | 0, s, st => ⟨0, s, { st with ub := true }⟩
  | f + 1, s, st => eq_loop f (parse_relational f s st)

def eq_loop : Nat → PRes → PRes
  | 0, r => ⟨r.val, r.rest, { r.st with ub := true }⟩
  | f + 1, r =>
    let c := peekc r.rest
    if c = '=' || c = '!' then
      let s1 := r.rest.tail
      if peekc s1 = '=' then
        let rhs := parse_ternary f s1.tail r.st
        eq_loop f ⟨boolInt (if c = '=' then r.val = rhs.val else r.val ≠ rhs.val),
                   rhs.rest, rhs.st⟩
      else eq_loop f ⟨r.val, s1, r.st⟩
    else r

def parse_relational : Nat → List Char → ESt → PRes
  | 0, s, st => ⟨0, s, { st with ub := true }⟩
  | f + 1, s, st => rel_loop f (parse_shift f s st)

def rel_loop : Nat → PRes → PRes
  | 0, r => ⟨r.val, r.rest, { r.st with ub := true }⟩
  | f + 1, r =>
    let c := peekc r.rest
    if c = '<' || c = '>' then
      let s1 := r.rest.tail
      if peekc s1 = '=' then
        let rhs := parse_ternary f s1.tail r.st
        rel_loop f ⟨boolInt (if c = '<' then r.val ≤ rhs.val else rhs.val ≤ r.val),
                    rhs.rest, rhs.st⟩
      else
        let rhs := parse_ternary f s1 r.st
        rel_loop f ⟨boolInt (if c = '<' then r.val < rhs.val else rhs.val < r.val),
                    rhs.rest, rhs.st⟩
    else r

def parse_shift : Nat → List Char → ESt → PRes
  | 0, s, st => ⟨0, s, { st with ub := true }⟩
  | f + 1, s, st => shift_loop f (parse_additive f s st)

def shift_loop : Nat → PRes → PRes
  | 0, r => ⟨r.val, r.rest, { r.st with ub := true }⟩
  | f + 1, r =>
    let c := peekc r.rest
    if c = '<' || c = '>' then
      if peek2 r.rest = c then
        let rhs := parse_ternary f (r.rest.drop 2) r.st
        let v := if c = '<' then cShl r.val rhs.val rhs.st else cShr r.val rhs.val rhs.st
        shift_loop f ⟨v.1, rhs.rest, v.2⟩
      else r
    else r

def parse_additive : Nat → List Char → ESt → PRes
  | 0, s, st => ⟨0, s, { st with ub := true }⟩
  | f + 1, s, st => add_loop f (parse_multiplicative f s st)

def add_loop : Nat → PRes → PRes
  | 0, r => ⟨r.val, r.rest, { r.st with ub := true }⟩
  | f + 1, r =>
    let c := peekc r.rest
    if c = '+' || c = '-' then
      let rhs := parse_ternary f r.rest.tail r.st
      add_loop f ⟨if c = '+' then r.val + rhs.val else r.val - rhs.val,
                  rhs.rest, rhs.st⟩
    else r

def parse_multiplicative : Nat → List Char → ESt → PRes
  | 0, s, st => ⟨0, s, { st with ub := true }⟩
  | f + 1, s, st => mul_loop f (parse_unary f s st)

def mul_loop : Nat → PRes → PRes
  | 0, r => ⟨r.val, r.rest, { r.st with ub := true }⟩
  | f + 1, r =>
    let c := peekc r.rest
    if c = '*' || c = '/' || c = '%' then
      let rhs := parse_ternary f r.rest.tail r.st
      if c = '*' then mul_loop f ⟨r.val * rhs.val, rhs.rest, rhs.st⟩
      else if c = '%' then
        let v := cModRaw r.val rhs.val rhs.st
        mul_loop f ⟨v.1, rhs.rest, v.2⟩
      else
        if rhs.val = 0 then
          let v := set_error rhs.st EE_DIVBYZERO
          ⟨v.1, rhs.rest, v.2⟩
        else mul_loop f ⟨Int.tdiv r.val rhs.val, rhs.rest, rhs.st⟩
    else r

def parse_unary : Nat → List Char → ESt → PRes
  | 0, s, st => ⟨0, s, { st with ub := true }⟩
  | f + 1, s, st =>
    let c := peekc s
    if c = '+' || c = '-' || c = '!' || c = '~' then
      let rhs := parse_primary f s.tail st
      let v : Int :=
        if c = '+' then rhs.val
        else if c = '-' then -rhs.val
        else if c = '!' then boolInt (rhs.val = 0)
        else Int.not rhs.val
      ⟨v, rhs.rest, rhs.st⟩
    else parse_primary f s st

def parse_primary : Nat → List Char → ESt → PRes
  | 0, s, st => ⟨0, s, { st with ub := true }⟩
  | f + 1, s, st =>
    let s0 := skipws s
    if peekc s0 = '(' then
      let r := parse_ternary f s0.tail st
      if peekc r.rest = ')' then ⟨r.val, r.rest.tail, r.st⟩
      else
        let v := set_error r.st EE_MISSINGPAREN
        ⟨v.1, r.rest, v.2⟩
    else if isdigit (peekc s0) then parse_number s0 st
    else if peekc s0 = '\'' then parse_char_constant s0 st
    else
      let v := set_error st EE_UNEXPECTEDCHAR
      ⟨v.1, s0, v.2⟩

end

/-- A fuel that dominates the call depth of the parser on `s` (each
level of the grammar consumes one unit; at least one character is
consumed between re-entries of `parse_ternary`). -/
def evalFuel (s : List Char) : Nat := 32 * (s.length + 2)

/-- `evaluate_expression`: clears `expr_error` and runs `parse_ternary`.
Returns the value together with the final evaluator state. -/
def evaluate_expression (s : List Char) : Int × ESt :=
  let r := parse_ternary (evalFuel s) s ⟨EE_OK, false⟩
  (r.val, r.st)

/-! ## macro.c — the macro table

A `Macro` mirrors `struct macro`: `param = none` is a NULL parameter
list (object-like macro); `param = some ps` is a function-like macro,
where an entry `none` in `ps` is a `MacroParam` node whose `name` is
NULL (`addMacro` creates exactly one such node for an empty parameter
list `NAME()`).  `replace = none` is a NULL replacement text. -/

structure Macro where
  name : List Char
  param : Option (List (Option (List Char)))
  replace : Option (List Char)
deriving DecidableEq, Repr

/-- `findMacro`: first entry of the list whose name matches. -/
def findMacro : List Macro → List Char → Option Macro
  | [], _ => none
  | m :: t, nm => if m.name = nm then some m else findMacro t nm

/-- `isdefinedMacro`. -/
def isdefinedMacro (table : List Macro) (nm : List Char) : Bool :=
  (findMacro table nm).isSome

/-- `deleteMacro`: unlinks the first entry with the given name;
returns `-1` when no entry matches. -/
def deleteMacro : List Macro → List Char → Int × List Macro
  | [], _ => (-1, [])
  | m :: t, nm =>
    if m.name = nm then (0, t)
    else
      let r := deleteMacro t nm
      (r.1, m :: r.2)

/-- `isMacroBanned`: membership in the banned-name list. -/
def isMacroBanned (banned : List (List Char)) (nm : List Char) : Bool :=
  banned.contains nm

/-- `banMacro`: `deleteMacro` unconditionally (result ignored), then
prepend the name to the banned list; returns 0. -/
def banMacro (banned : List (List Char)) (table : List Macro) (nm : List Char) :
    Int × List (List Char) × List Macro :=
  (0, nm :: banned, (deleteMacro table nm).2)

/-- The identifier scan of addMacro: `while (buf < end && isIdent(*buf, i++)) buf++`.
Returns the scanned identifier and the rest. -/
def scanIdent : List Char → Nat → List Char × List Char
  | [], _ => ([], [])
  | c :: s, i =>
    if isIdent c (i : Int) then
      let r := scanIdent s (i + 1)
      (c :: r.1, r.2)
    else ([], c :: s)

/-- The macro-name parse at the head of `addMacro`: skip spaces, scan an
identifier, then require the following character to be `(`, a blank, or
the end of the string (C's `strchr(" (", type)` also matches the
terminator of `" ("`).  Returns the name, that character, and the text
from that character on. -/
def parseMacroName (buf : List Char) : Option (List Char × Char × List Char) :=
  let b1 := skipws buf
  let r := scanIdent b1 0
  let type := peekc r.2
  if r.1 = [] || !(type = ' ' || type = '(' || type = NUL) then none
  else some (r.1, type, r.2)

/-- The parameter-list loop of `addMacro` (entered just past the `(`).
Each iteration allocates a parameter node (name NULL), scans an
identifier, consumes one separator character (skipping blanks around
it), fills in the node's name if the identifier was nonempty, and stops
at `)`; a separator other than `,` is an error, and so is running out of
text mid-parameter.  Exiting because the text is exhausted right at the
loop head is, as in the C, not an error.  The fuel dominates the loop
(every iteration consumes at least one character). -/
def paramsLoop : Nat → List Char → List (Option (List Char)) →
    Option (List (Option (List Char)) × List Char)
  | _, [], acc => some (acc, [])
  | 0, s, acc => some (acc, s)
  | f + 1, s, acc =>
    let s1 := skipws s
    let r := scanIdent s1 0
    if r.2 = [] then none
    else
      let c := peekc r.2
      let s2 := r.2.tail
      let cs : Option (Char × List Char) :=
        if isspace c then
          let s3 := skipws s2
          if s3 = [] then none else some (peekc s3, s3.tail)
        else some (c, s2)
      match cs with
      | none => none
      | some (c2, s4) =>
        let pname : Option (List Char) := if r.1 = [] then none else some r.1
        let acc' := acc ++ [pname]
        if c2 = ')' then some (acc', s4)
        else if !(c2 = ',') then none
        else paramsLoop f s4 acc'

/-- `addMacro`: parse name, refuse a malformed head, silently succeed
(creating nothing) on a banned name, parse the parameter list after an
adjacent `(`, take the rest (blanks stripped) as verbatim replacement
text (NULL when empty), and append the new node at the end of the list.
No existing entry of the same name is looked up, removed or compared. -/
def addMacro (banned : List (List Char)) (table : List Macro) (buf : List Char) :
    Int × List Macro :=
  match parseMacroName buf with
  | none => (-1, table)
  | some (name, type, rest) =>
    if isMacroBanned banned name then (0, table)
    else
      let pr : Option (Option (List (Option (List Char))) × List Char) :=
        if type = '(' then
          match paramsLoop (rest.tail.length + 1) rest.tail [] with
          | none => none
          | some (ps, s') => some (some ps, s')
        else some (none, rest.tail)
      match pr with
      | none => (-1, table)
      | some (params, s') =>
        let s2 := skipws s'
        let rep : Option (List Char) := if s2 = [] then none else some s2
        (0, table ++ [⟨name, params, rep⟩])

/-- A later `#define`/`#undef` operation, for stating what a banned name
stays immune to. -/
inductive MOp where
  | defn (buf : List Char)
  | undef (nm : List Char)

/-- Applying one operation to the macro table (the banned list is not
touched by defines or undefs). -/
def applyOp (banned : List (List Char)) (table : List Macro) : MOp → List Macro
  | .defn buf => (addMacro banned table buf).2
  | .undef nm => (deleteMacro table nm).2

/-- Applying a sequence of define/undef operations. -/
def applyOps (banned : List (List Char)) : List Macro → List MOp → List Macro
  | table, [] => table
  | table, op :: ops => applyOps banned (applyOp banned table op) ops

/-! ## macro.c — the in-place buffer substitution engine

A C buffer of capacity `cap` is its content (the characters before the
NUL) plus Nat positions; reading at or past the content yields NUL.
Every scanning loop carries explicit fuel; call sites pass a fuel that
dominates the loop (each iteration advances the scanned position). -/

/-- `*p` at an absolute buffer position. -/
def charAt (content : List Char) (i : Nat) : Char := content.getD i NUL

/-- `charAt` at a possibly negative position (pointer arithmetic in
`removeDoubleHash` can step in front of the buffer; every such read in
the C is guarded, and so are the model's). -/
def charAtI (content : List Char) (i : Int) : Char :=
  if i < 0 then NUL else charAt content i.toNat

/-- The characters of the buffer between positions `a` and `b` (`b`
excluded). -/
def seg (content : List Char) (a b : Nat) : List Char :=
  (content.drop a).take (b - a)

/-- `seg` at `Int` positions. -/
def segI (content : List Char) (a b : Int) : List Char :=
  seg content a.toNat b.toNat

/-- `strlen` taken from position `i`. -/
def strlenFrom (content : List Char) (i : Nat) : Nat :=
  ((content.drop i).takeWhile (fun c => !(c = NUL))).length

/-- `skipSpaces(buf, end)`. -/
def skipSpacesB (content : List Char) (cap : Nat) : Nat → Nat → Nat
  | 0, p => p
  | f + 1, p =>
    if p < cap && isspace (charAt content p) then skipSpacesB content cap f (p + 1) else p

/-- The do/while of `skipString`. -/
def skipStringLoop (content : List Char) (cap : Nat) : Nat → Nat → Nat
  | 0, p => p
  | f + 1, p =>
    if p < cap && !(charAt content p = '"' && !(charAt content (p - 1) = '\\')) then
      skipStringLoop content cap f (p + 1)
    else p

/-- `skipString(buf, end)`: called with the cursor at the opening quote;
steps once, scans to an unescaped quote, then past it when in bounds. -/
def skipString (content : List Char) (cap : Nat) (p : Nat) : Nat :=
  let q := skipStringLoop content cap (cap + 1) (p + 1)
  if q < cap then q + 1 else q

/-- The scan loop of `skipNumber`. -/
def skipNumberLoop (content : List Char) (cap : Nat) : Nat → Nat → Nat
  | 0, p => p
  | f + 1, p =>
    if p < cap then
      let c := tolower (charAt content p)
      if c = 'u' || c = 'l' then p + 1
      else if !(isdigit c) && !(c = 'x' || c = 'a' || c = 'b' || c = 'c' || c = 'd' ||
                c = 'e' || c = 'f') then p
      else skipNumberLoop content cap f (p + 1)
    else p

/-- `skipNumber(buf, end)`. -/
def skipNumber (content : List Char) (cap : Nat) (p : Nat) : Nat :=
  if !(isdigit (charAt content p)) then p
  else skipNumberLoop content cap (cap + 1) (p + 1)

/-- The loop of `skipExpression`: pre-increments the cursor, then reacts
to the character there, keeping a parenthesis count. -/
def skipExprLoop (content : List Char) (cap : Nat) : Nat → Nat → Nat → Nat
  | 0, p, _ => p
  | f + 1, p, count =>
    if p < cap && 0 < count then
      let p1 := p + 1
      let c := charAt content p1
      if c = '(' then skipExprLoop content cap f p1 (count + 1)
      else if c = ')' then skipExprLoop content cap f p1 (count - 1)
      else if c = '"' then skipExprLoop content cap f (skipString content cap p1) count
      else skipExprLoop content cap f p1 count
    else p

/-- `skipExpression(buf, end)`: called with the cursor at the opening
parenthesis; returns the position of the balancing `)` (or `end`). -/
def skipExpression (content : List Char) (cap : Nat) (p : Nat) : Nat :=
  skipExprLoop content cap (2 * cap + 2) p 1

/-- `replaceBuf(start, buf, end, replace)`: replaces the characters of
`[s, b)` with `rep`, keeping the tail from `b` to the end of the string;
fails (NULL in the C) when the result would not leave room for the
terminator before `cap`.  Returns the new content and `start + strlen(replace)`. -/
def replaceBuf (content : List Char) (cap : Nat) (s b : Nat) (rep : List Char) :
    Option (List Char × Nat) :=
  let endstr := max content.length s
  if (cap : Int) ≤ (s : Int) + rep.length + ((endstr : Int) - (b : Int)) then none
  else some (content.take s ++ rep ++ (content.drop b).take (endstr - b), s + rep.length)

/-- An input stream as `getBuiltinMacro` sees it (`instream_t`). -/
structure InStream where
  line : Int
  fname : Option (List Char)

/-- The external collaborators reachable from the embedded code: the
current input stream (for `__LINE__`/`__FILE__`) and the
`newinstream` opener used by `#include` (an oracle: filename and
search-current-dir flag to return code). -/
structure Env where
  stream : Option InStream
  newinstream : List Char → Int → Int

/-- `snprintf("%d", n)`. -/
def intToDecimal (n : Int) : List Char :=
  if n < 0 then '-' :: Nat.toDigits 10 (-n).toNat else Nat.toDigits 10 n.toNat

/-- `getBuiltinMacro`: `__LINE__` resolves to the stream's line number
minus one (or "1" with no stream), `__FILE__` to the quoted filename
(or "<unknown>"). -/
def getBuiltinMacro (env : Env) (name : List Char) : Option (List Char) :=
  if name = "__LINE__".toList then
    some (match env.stream with
      | some st => intToDecimal (st.line - 1)
      | none => ['1'])
  else if name = "__FILE__".toList then
    some (match env.stream with
      | some st =>
        match st.fname with
        | some f => '"' :: (f ++ ['"'])
        | none => "\"<unknown>\"".toList
      | none => "\"<unknown>\"".toList)
  else none

/-- The escape/copy loop of `stringifyParameter` with its 512-byte
result buffer bounds (`result_size` is always `sizeof` 512 at the call
site). -/
def stringifyLoop : List Char → Nat → List Char → Option (Nat × List Char)
  | [], pos, acc => some (pos, acc)
  | c :: src, pos, acc =>
    if pos < 510 then
      if c = '"' || c = '\\' then
        if pos < 509 then stringifyLoop src (pos + 2) (acc ++ ['\\', c])
        else none
      else stringifyLoop src (pos + 1) (acc ++ [c])
    else some (pos, acc)

/-- `stringifyParameter`: wraps the value in quotes, escaping `"` and
`\`; fails (−1) when the 512-byte result buffer would overflow. -/
def stringifyParameter (value : List Char) : Option (List Char) :=
  match stringifyLoop value 1 ['"'] with
  | none => none
  | some (pos, acc) => if pos < 511 then some (acc ++ ['"']) else none

/-- The bounded copy into `removeDoubleHash`'s 256-byte `pasted` buffer
(one `if (pos < 255)` check per character). -/
def pasteCopy : List Char → Nat → List Char → Nat × List Char
  | [], pos, acc => (pos, acc)
  | c :: s, pos, acc =>
    if pos < 255 then pasteCopy s (pos + 1) (acc ++ [c]) else (pos, acc)

/-- `while (left_end >= buf && isspace(*left_end)) left_end--`. -/
def skipBackSpaces (content : List Char) (low : Int) : Nat → Int → Int
  | 0, i => i
  | f + 1, i =>
    if low ≤ i && isspace (charAtI content i) then skipBackSpaces content low f (i - 1) else i

/-- `while (left_start > buf && *left_start != '"') left_start--`. -/
def scanBackString (content : List Char) (low : Int) : Nat → Int → Int
  | 0, i => i
  | f + 1, i =>
    if low < i && !(charAtI content i = '"') then scanBackString content low f (i - 1) else i

/-- `while (left_start > buf && (isalnum(*(left_start-1)) || *(left_start-1) == '_')) left_start--`. -/
def scanBackIdent (content : List Char) (low : Int) : Nat → Int → Int
  | 0, i => i
  | f + 1, i =>
    if low < i && (isalnum (charAtI content (i - 1)) || charAtI content (i - 1) = '_') then
      scanBackIdent content low f (i - 1)
    else i

/-- `while (p < hi && pred(*p)) p++`. -/
def scanFwdWhile (content : List Char) (hi : Nat) (pred : Char → Bool) : Nat → Nat → Nat
  | 0, p => p
  | f + 1, p =>
    if p < hi && pred (charAt content p) then scanFwdWhile content hi pred f (p + 1) else p

/-- The token-pasting loop of `removeDoubleHash`.  At each `##` it
locates the left token (identifier or string literal, blanks skipped),
the right token (string, number or identifier), and splices the pasted
token over the whole section; a string-literal left side absorbs a
non-string right side inside its quotes; an invalid context or an
overlong token just drops the `##`.  The combined memmove/memcpy of the
C amounts to `take ++ pasted ++ drop` whatever `size_diff` is, so the
`if (size_diff != 0)` guard has no separate effect here.  Fuel
exhaustion returns the buffer as is (the supplied fuel dominates the
loop for every input arising in this development). -/
def rdhLoop (startPos endm : Nat) : Nat → List Char → Nat → List Char
  | 0, content, _ => content
  | f + 1, content, pp =>
    if pp + 1 < endm then
      if charAt content pp = '#' && charAt content (pp + 1) = '#' then
        let le : Int := skipBackSpaces content startPos (pp + 2) ((pp : Int) - 1)
        let ls : Int :=
          if (startPos : Int) ≤ le && charAtI content le = '"' then
            scanBackString content startPos (pp + 2) (le - 1)
          else scanBackIdent content startPos (pp + 2) le
        let rs := scanFwdWhile content endm isspace (endm + 2) (pp + 2)
        let re : Nat :=
          if rs < endm && charAt content rs = '"' then
            let q := scanFwdWhile content endm (fun c => !(c = '"')) (endm + 2) (rs + 1)
            if q < endm && charAt content q = '"' then q + 1 else q
          else if rs < endm && isdigit (charAt content rs) then
            scanFwdWhile content endm (fun c => isalnum c || c = '.') (endm + 2) rs
          else scanFwdWhile content endm (fun c => isalnum c || c = '_') (endm + 2) rs
        if ls ≤ le && rs < re then
          if ls < le && charAtI content ls = '"' && charAtI content le = '"' &&
             !(rs < re && charAt content rs = '"') then
            let t1 := pasteCopy (segI content ls le) 0 []
            let t2 := pasteCopy (seg content rs re) t1.1 t1.2
            let t3 : Nat × List Char :=
              if t2.1 < 255 then (t2.1 + 1, t2.2 ++ ['"']) else t2
            if t3.1 < 256 then
              rdhLoop startPos endm f
                (content.take ls.toNat ++ t3.2 ++ content.drop re) (ls.toNat + t3.1)
            else rdhLoop startPos endm f (content.take pp ++ content.drop (pp + 2)) pp
          else
            let newLen := (le - ls + 1).toNat + (re - rs)
            if newLen < 256 then
              rdhLoop startPos endm f
                (content.take ls.toNat ++ (segI content ls (le + 1) ++ seg content rs re) ++
                  content.drop re)
                (ls.toNat + newLen)
            else rdhLoop startPos endm f (content.take pp ++ content.drop (pp + 2)) pp
        else rdhLoop startPos endm f (content.take pp ++ content.drop (pp + 2)) pp
      else rdhLoop startPos endm f content (pp + 1)
    else content

/-- `removeDoubleHash(buf, endm)`. -/
def removeDoubleHash (content : List Char) (startPos endm : Nat) : List Char :=
  rdhLoop startPos endm
    ((endm + content.length + 4) * (endm + content.length + 4)) content startPos

/-- The loop of `findEndOfParameter`: scan to a top-level `,` or `)`,
skipping strings and balanced parentheses. -/
def findEndOfParameterLoop (content : List Char) (cap : Nat) : Nat → Nat → Nat
  | 0, p => p
  | f + 1, p =>
    if p < cap && !(charAt content p = ',') && !(charAt content p = ')') then
      let p1 := if charAt content p = '"' then skipString content cap p else p
      let p2 := if charAt content p1 = '(' then skipExpression content cap p1 else p1
      findEndOfParameterLoop content cap f (p2 + 1)
    else p

/-- `findEndOfParameter(buf, end)`. -/
def findEndOfParameter (content : List Char) (cap : Nat) (p : Nat) : Nat :=
  findEndOfParameterLoop content cap (cap + 2) p

/-- The identifier scan at the head of `processMacro`
(`while (buf <= end && isIdent(*buf, buf - start)) buf++`). -/
def identScanB (content : List Char) (cap start : Nat) : Nat → Nat → Nat
  | 0, p => p
  | f + 1, p =>
    if p ≤ cap && isIdent (charAt content p) ((p : Int) - (start : Int)) then
      identScanB content cap start f (p + 1)
    else p

/-- The identifier scans inside the substitution walk, bounded by the
walk's (Int-valued) end-of-macro pointer and indexed relative to `base`. -/
def scanIdentUnder (content : List Char) (hi : Int) (base : Nat) : Nat → Nat → Nat
  | 0, p => p
  | f + 1, p =>
    if (p : Int) < hi && isIdent (charAt content p) ((p : Int) - (base : Int)) then
      scanIdentUnder content hi base f (p + 1)
    else p

/-- One `parammacro` node: a formal parameter name (NULL possible for a
degenerate parameter list) bound to the raw actual-argument text.  The
C substitution walk calls `strlen` on the name, so a NULL name there
would dereference NULL; the model treats such a binding as never
matching (no claim exercises that path). -/
abbrev Binding := Option (List Char) × List Char

/-- The binding-list search of the substitution walk (first match on
the exact name). -/
def findBinding : List Binding → List Char → Option Binding
  | [], _ => none
  | b :: t, nm =>
    match b.1 with
    | some n => if n = nm then some b else findBinding t nm
    | none => findBinding t nm

/-- Outcome of the argument-collection loop of `processMacro`. -/
inductive ArgsRes where
  | ok (binds : List Binding) (p : Nat)
  | err

/-- The argument-collection loop of `processMacro` (entered just past
the call's `(`), one iteration per formal parameter: skip blanks, scan
to the end of the actual argument, check the arity conditions at `)` or
`,`, bind, and step past the separator. -/
def argsLoop (content : List Char) (cap : Nat) :
    Nat → List (Option (List Char)) → Nat → List Binding → ArgsRes
  | _, [], p, acc => .ok acc p
  | 0, _ :: _, p, acc => .ok acc p
  | f + 1, pn :: ps, p0, acc =>
    let p1 := skipSpacesB content cap (cap + 1) p0
    if cap ≤ p1 then .err
    else
      let p2 := findEndOfParameter content cap p1
      if cap ≤ p2 then .err
      else
        let c := charAt content p2
        if c = ')' && pn = none then
          if p2 = p1 then .ok acc (p2 + 1)
          else .err
        else if c = ')' && !(pn = none) && !(ps = []) then .err
        else if c = ',' && ps = [] then .err
        else argsLoop content cap f ps (p2 + 1) (acc ++ [(pn, seg content p1 p2)])

/-- Outcome of the substitution walk: the updated buffer and
end-of-macro pointer, a hard error from a failed `replaceBuf`
(carrying the buffer as mutated so far), or fuel exhaustion of a
nested `processBuffer` call. -/
inductive WalkRes where
  | ok (content : List Char) (bufEnd : Int)
  | err (content : List Char)
  | fail

/-- The parameter-substitution walk over the just-substituted span
(`processMacro` lines 1067–1149): stringification (`#param`, the
argument macro-expanded first via a nested `processBuffer`, falling
back to the raw text on failure), then plain parameter substitution.
The end-of-macro pointer is updated exactly as the C updates `buf`
(`buf += newtoken - param_end` resp. `buf += newtoken - token`).  Fuel
exhaustion exits the loop as if it had completed. -/
def walkLoop (pb : List Char → Nat → Option (Int × List Char))
    (binds : List Binding) (cap startPos : Nat) :
    Nat → List Char → Nat → Int → WalkRes
  | 0, content, _, bufEnd => .ok content bufEnd
  | f + 1, content, token, bufEnd =>
    if (token : Int) < bufEnd then
      let c0 := charAt content token
      if c0 = '#' && ((token : Int) + 1 < bufEnd) && isIdent (charAt content (token + 1)) 0 &&
         !(startPos < token && charAt content (token - 1) = '#') then
        let pstart := token + 1
        let pend := scanIdentUnder content bufEnd pstart (cap + 2) pstart
        match findBinding binds (seg content pstart pend) with
        | some b =>
          let ep0 := b.2.take 511
          match pb ep0 ep0.length with
          | none => .fail
          | some r =>
            let ep := if r.1 < 0 then ep0 else r.2
            match stringifyParameter ep with
            | some strd =>
              match replaceBuf content cap token pend strd with
              | none => .err content
              | some (c', newtoken) =>
                walkLoop pb binds cap startPos f c' newtoken
                  (bufEnd + ((newtoken : Int) - (pend : Int)))
            | none => walkLoop pb binds cap startPos f content pend bufEnd
        | none => walkLoop pb binds cap startPos f content (token + 1) bufEnd
      else if isIdent c0 ((token : Int) - (startPos : Int)) then
        let tend := scanIdentUnder content bufEnd token (cap + 2) token
        match findBinding binds (seg content token tend) with
        | some b =>
          match b.1 with
          | some nm =>
            match replaceBuf content cap token (token + nm.length) b.2 with
            | none => .err content
            | some (c', newtoken) =>
              walkLoop pb binds cap startPos f c' newtoken
                (bufEnd + ((newtoken : Int) - (token : Int)))
          | none => walkLoop pb binds cap startPos f content (token + 1) bufEnd
        | none => walkLoop pb binds cap startPos f content (token + 1) bufEnd
      else walkLoop pb binds cap startPos f content (token + 1) bufEnd
    else .ok content bufEnd

/-- `processMacro(buf, len, ifclausemode)` on the buffer region starting
at `start` with capacity `cap`.  `pb` is the `processBuffer` reachable
from the stringification path (fuelled by the caller); `none`
propagates its fuel exhaustion.  Returns the C return value (span
length, 1 for "no identifier", or an error count), the updated buffer,
and the `macro_expanded` flag.  Where the C computes `NULL - start`
after an unchecked failed `replaceBuf`, the model returns that same
`0 - start`. -/
def processMacro (pb : List Char → Nat → Option (Int × List Char)) (env : Env)
    (macros : List Macro) (content : List Char) (cap start : Nat) (mode : Bool) :
    Option (Int × List Char × Bool) :=
  let p := identScanB content cap start (cap + 2) start
  if p = start then some (1, content, false)
  else
    let name := seg content start p
    match findMacro macros name with
    | none =>
      match getBuiltinMacro env name with
      | some v =>
        match replaceBuf content cap start p v with
        | some (c', np) => some ((np : Int) - (start : Int), c', true)
        | none => some ((0 : Int) - (start : Int), content, true)
      | none =>
        let p1 := if charAt content p = '(' then skipExpression content cap p else p
        if mode then
          match replaceBuf content cap start p1 ['0'] with
          | some (c', np) => some ((np : Int) - (start : Int), c', false)
          | none => some ((0 : Int) - (start : Int), content, false)
        else some (((p1 : Int) - (start : Int)), content, false)
    | some mac =>
      let argr : Option (List Binding × Nat) :=
        match mac.param with
        | none => some ([], p)
        | some ps =>
          if !(charAt content p = '(') then none
          else
            match argsLoop content cap (cap + 2) ps (p + 1) [] with
            | .err => none
            | .ok binds p2 => some (binds, p2)
      match argr with
      | none => some (-1, content, true)
      | some (binds, p2) =>
        if mode && (mac.replace = none || mac.replace = some []) then
          match replaceBuf content cap start p2 ['0'] with
          | some (c', np) => some ((np : Int) - (start : Int), c', true)
          | none => some ((0 : Int) - (start : Int), content, true)
        else
          match replaceBuf content cap start p2 (mac.replace.getD []) with
          | none => some (-1, content, true)
          | some (c1, bufEnd0) =>
            let wr : WalkRes :=
              if binds = [] then .ok c1 (bufEnd0 : Int)
              else walkLoop pb binds cap start ((cap + 2) * (cap + 2)) c1 start (bufEnd0 : Int)
            match wr with
            | .fail => none
            | .err c2 => some (-1, c2, true)
            | .ok c2 be =>
              some (be - (start : Int), removeDoubleHash c2 start be.toNat, true)

/-- One iteration of `processBuffer`'s scan loop. -/
inductive PBStep where
  | done (ret : Int) (content : List Char)
  | next (content : List Char) (pos rc : Nat)
  | fail

/-- The body of `processBuffer`'s while loop on state (content,
position, restart counter): skip blanks; at an identifier run
`processMacro` and either abort on error, restart at the start of an
expansion while the restart counter is under `MAX_RESTARTS` (100),
advance past it once the cap is hit, or advance past a non-expansion;
skip strings and numbers without resetting the counter; step over any
other character resetting it. -/
def pbStep (pb : List Char → Nat → Option (Int × List Char)) (env : Env)
    (macros : List Macro) (mode : Bool) (cap : Nat)
    (content : List Char) (pos rc : Nat) : PBStep :=
  if pos < cap && !(charAt content pos = NUL) then
    let p := skipSpacesB content cap (cap + 1) pos
    if isIdent (charAt content p) 0 then
      match processMacro pb env macros content cap p mode with
      | none => .fail
      | some (ret, c', exp) =>
        if ret < 0 then .done ret c'
        else if exp then
          if rc < 100 then .next c' p (rc + 1)
          else .next c' (p + ret.toNat) 0
        else .next c' (p + ret.toNat) 0
    else if charAt content p = '"' && !(0 < p && charAt content (p - 1) = '\\') then
      .next content (skipString content cap p) rc
    else if isdigit (charAt content p) then
      .next content (skipNumber content cap p) rc
    else .next content (p + 1) 0
  else .done 0 content

/-- `processBuffer` as a fuelled loop: one unit of fuel per iteration
and per nesting level of the stringification path's recursive
`processBuffer` call; `none` means the fuel ran out before the C loop
exited.  (For one macro table and buffer below, no fuel suffices: the
C loop runs forever.) -/
def processBufferF : Nat → Env → List Macro → Bool → Nat → List Char → Nat → Nat →
    Option (Int × List Char)
  | 0, _, _, _, _, _, _, _ => none
  | f + 1, env, macros, mode, cap, content, pos, rc =>
    match pbStep (fun c n => processBufferF f env macros false n c 0 0)
        env macros mode cap content pos rc with
    | .done ret c => some (ret, c)
    | .next c p r => processBufferF f env macros mode cap c p r
    | .fail => none

/-- `processBuffer(buf, len, ifclausemode)`. -/
def processBuffer (fuel : Nat) (env : Env) (macros : List Macro)
    (content : List Char) (len : Nat) (mode : Bool) : Option (Int × List Char) :=
  processBufferF fuel env macros mode len content 0 0

/-! ## cmdline.c — `#if` evaluation and the directive state machine -/

/-- `stripspaces`: deletes every whitespace character, stopping at the
terminator. -/
def stripspaces : List Char → List Char
  | [] => []
  | c :: s => if c = NUL then [] else if isspace c then stripspaces s else c :: stripspaces s

/-- `while (isspace(*buf)) ++buf` (no end bound; NUL stops it). -/
def skipSpacesNoEnd (content : List Char) : Nat → Nat → Nat
  | 0, p => p
  | f + 1, p =>
    if isspace (charAt content p) then skipSpacesNoEnd content f (p + 1) else p

/-- The scan of C `strstr` from position `i`. -/
def strstrLoop (content pat : List Char) : Nat → Nat → Option Nat
  | 0, _ => none
  | f + 1, i =>
    if i + pat.length ≤ content.length then
      if seg content i (i + pat.length) == pat then some i
      else strstrLoop content pat f (i + 1)
    else none

/-- C `strstr(content + i, pat)` as an absolute position. -/
def strstrFrom (content pat : List Char) (i : Nat) : Option Nat :=
  strstrLoop content pat (content.length + 2) i

/-- The scan of C `strchr` from position `i`. -/
def strchrLoop (content : List Char) (c : Char) : Nat → Nat → Option Nat
  | 0, _ => none
  | f + 1, i =>
    if i < content.length then
      if charAt content i = c then some i else strchrLoop content c f (i + 1)
    else none

/-- C `strchr(content + i, c)` as an absolute position. -/
def strchrFrom (content : List Char) (c : Char) (i : Nat) : Option Nat :=
  strchrLoop content c (content.length + 2) i

/-- The rewrite loop of `check_defined`: find the next occurrence of
the text `defined`, locate the macro name (parenthesised or bare),
replace the span from `defined` up to `defined_end` by `1` or `0`
(`replaceBuf`'s failure is ignored, as in the C — the buffer then stays
as it was), recompute the string end, and resume one character past the
replacement start.  In the parenthesised form `defined_end` is the
position of the `)`, which is therefore left in the buffer. -/
def checkDefinedLoop (macros : List Macro) : Nat → List Char → Nat → Int × List Char
  | 0, content, _ => (0, content)
  | f + 1, content, start =>
    let strendCur := strlenFrom content 0 + 1
    if start < strendCur then
      match strstrFrom content "defined".toList start with
      | none => (0, content)
      | some pos =>
        let b0 := pos + 7
        let b1 := skipSpacesNoEnd content (content.length + 2) b0
        let pm : Option (Bool × Nat × Nat) :=
          if charAt content b1 = '(' then
            match strchrFrom content ')' (b1 + 1) with
            | none => none
            | some de => some (true, b1 + 1, de)
          else some (false, b1, strendCur)
        match pm with
        | none => (-1, content)
        | some (pmode, ms0, de0) =>
          let ms := skipSpacesNoEnd content (content.length + 2) ms0
          let me := scanIdentUnder content (de0 : Int) ms (content.length + 2) ms
          if me = ms then (-1, content)
          else
            let dend := if pmode then de0 else me
            let rep : List Char := [if isdefinedMacro macros (seg content ms me) then '1' else '0']
            let content' := ((replaceBuf content strendCur pos dend rep).map (·.1)).getD content
            checkDefinedLoop macros f content' (pos + 1)
    else (0, content)

/-- `check_defined(buf, end)`: rewrites every `defined NAME` /
`defined(NAME)` occurrence to `1` or `0`. -/
def check_defined (macros : List Macro) (content : List Char) (cap : Nat) :
    Int × List Char :=
  let strend := strlenFrom content 0 + 1
  if cap ≤ 0 || cap ≤ strend then (-1, content)
  else checkDefinedLoop macros (content.length + 2) content 0

/-- `evalifexpr(buf, end, &result)`: strip all whitespace, rewrite
`defined` forms, macro-expand in conditional mode, strip again, then
evaluate; a nonzero error code makes the whole call fail (−1).
Returns the C return value, the `*result` value, and the final
evaluator state; `none` only when the supplied `processBuffer` fuel
runs out. -/
def evalifexpr (pbfuel : Nat) (env : Env) (macros : List Macro)
    (content : List Char) (cap : Nat) : Option (Int × Int × ESt) :=
  let c1 := stripspaces content
  let cd := check_defined macros c1 cap
  if !(cd.1 = 0) then some (-1, 0, ⟨EE_OK, false⟩)
  else
    match processBuffer pbfuel env macros cd.2 cap true with
    | none => none
    | some (r, c3) =>
      if !(r = 0) then some (-1, 0, ⟨EE_OK, false⟩)
      else
        let c4 := stripspaces c3
        let v := evaluate_expression c4
        if !(v.2.err = EE_OK) then some (-1, v.1, v.2)
        else some (0, v.1, v.2)

/-- `do_include(buf, end)`: find a `<name>` or `"name"` filename and
hand it to the input-stream collaborator (`newinstream`, an oracle in
`Env`; second argument 1 for the quoted form). -/
def do_include (env : Env) (content : List Char) (cap : Nat) : Int :=
  let strend := strlenFrom content 0 + 1
  if cap ≤ 0 || cap ≤ strend then -1
  else
    match strchrFrom content '<' 0 with
    | some i =>
      match strchrFrom content '>' (i + 1) with
      | none => -1
      | some fe => if env.newinstream (seg content (i + 1) fe) 0 = 0 then 0 else -1
    | none =>
      match strchrFrom content '"' 0 with
      | some i =>
        match strchrFrom content '"' (i + 1) with
        | none => -1
        | some fe => if env.newinstream (seg content (i + 1) fe) 1 = 0 then 0 else -1
      | none => -1

/-- The directive keywords (`cmdtoken_t`). -/
inductive Cmdtoken where
  | EMPTY | INCLUDE | DEFINE | UNDEF | IF | IFDEF | IFNDEF | ELSE | ELIF | ENDIF
  | ERROR | PRAGMA | LINE | UNKNOWN | Err
deriving DecidableEq, Repr

/-- The `cmdnames` table, in array order. -/
def cmdnames : List (List Char × Cmdtoken) :=
  [([], .EMPTY), ("include".toList, .INCLUDE), ("define".toList, .DEFINE),
   ("undef".toList, .UNDEF), ("if".toList, .IF), ("ifdef".toList, .IFDEF),
   ("ifndef".toList, .IFNDEF), ("else".toList, .ELSE), ("elif".toList, .ELIF),
   ("endif".toList, .ENDIF), ("error".toList, .ERROR), ("pragma".toList, .PRAGMA),
   ("line".toList, .LINE)]

/-- `getcmdtype` (the `Err` value stands for a NULL argument, which the
model's total strings cannot produce). -/
def getcmdtype (cmd : List Char) : Cmdtoken :=
  match cmdnames.find? (fun p => p.1 == cmd) with
  | some p => p.2
  | none => .UNKNOWN

/-- A condition frame's branch state (`cmdcondstate_t`). -/
inductive Ccstate where
  | COND_IF | COND_ELSE
deriving DecidableEq, Repr

/-- One condition frame (`struct cmdcond`); the stack is a list,
innermost first. -/
structure CmdCond where
  state : Ccstate
  ifstate : Int
deriving DecidableEq, Repr

/-- The dispatcher's mutable state: the condition-frame stack, the
global `condstate` ("active") flag, the static skip-depth counter
`ifdepth`, and the macro engine's globals. -/
structure CmdSt where
  cmdcond : List CmdCond
  condstate : Int
  ifdepth : Int
  macros : List Macro
  banned : List (List Char)
deriving DecidableEq, Repr

/-- C `(int)` conversion of a `long` (two's-complement wrap). -/
def toCInt (v : Int) : Int := (v + 2 ^ 31) % 2 ^ 32 - 2 ^ 31

/-- C `!` on an int. -/
def cNot (v : Int) : Int := if v = 0 then 1 else 0

/-- The keyword scan of `processcmdline`
(`while (buf < end && *buf != ' ' && *buf != '\n' && *buf != '\0') ++buf`). -/
def scanCmdEnd (line : List Char) (endI : Nat) : Nat → Nat → Nat
  | 0, p => p
  | f + 1, p =>
    let c := charAt line p
    if p < endI && !(c = ' ') && !(c = '\n') && !(c = NUL) then scanCmdEnd line endI f (p + 1)
    else p

/-- The final `switch (cmd)` of `processcmdline`.  `rest` is the text
after the keyword's terminator (`buf + 1` in the C) and `restCap` the
capacity left for it; `#include` first runs `processBuffer` on the
(empty) string at the terminator itself, with capacity `restCap + 1`.
The return values of `addMacro` and `deleteMacro` are discarded, as in
the C. -/
def cmdSwitch (pbfuel : Nat) (env : Env) (st : CmdSt) (cmd : Cmdtoken)
    (rest : List Char) (restCap : Nat) : Option (Int × CmdSt) :=
  match cmd with
  | .INCLUDE =>
    match processBuffer pbfuel env st.macros [] (restCap + 1) false with
    | none => none
    | some r =>
      if !(r.1 = 0) then some (-1, st)
      else if do_include env rest restCap = 0 then some (0, st) else some (-1, st)
  | .DEFINE => some (0, { st with macros := (addMacro st.banned st.macros rest).2 })
  | .UNDEF => some (0, { st with macros := (deleteMacro st.macros rest).2 })
  | .IF =>
    match evalifexpr pbfuel env st.macros rest restCap with
    | none => none
    | some (r, v, _) =>
      if !(r = 0) then some (-1, st)
      else some (0, { st with cmdcond := ⟨.COND_IF, toCInt v⟩ :: st.cmdcond,
                              condstate := toCInt v, ifdepth := 0 })
  | .IFDEF =>
    let d := boolInt (isdefinedMacro st.macros rest)
    some (0, { st with cmdcond := ⟨.COND_IF, d⟩ :: st.cmdcond, condstate := d, ifdepth := 0 })
  | .IFNDEF =>
    let d := cNot (boolInt (isdefinedMacro st.macros rest))
    some (0, { st with cmdcond := ⟨.COND_IF, d⟩ :: st.cmdcond, condstate := d, ifdepth := 0 })
  | _ => some (0, st)

/-- `processcmdline(buf, size)`: bounds checks, keyword extraction
(the keyword is terminated in place; its directive text starts one past
the terminator), then the conditional block — the skip-mode transition
table when `condstate == 0`, the `COND_IF`/`COND_ELSE` transitions when
active, each possibly returning early — and finally the keyword switch.
`none` only when a `processBuffer` fuel runs out inside an arm. -/
def processcmdline (pbfuel : Nat) (env : Env) (st : CmdSt) (line : List Char)
    (size : Nat) : Option (Int × CmdSt) :=
  let endI := size - 1
  let strend := 1 + strlenFrom line 1
  if endI ≤ 1 || endI ≤ strend then some (-1, st)
  else
    let start0 := if charAt line 1 = ' ' then 2 else 1
    let pos1 := scanCmdEnd line endI (size + 2) start0
    let cmd := getcmdtype (seg line start0 pos1)
    let rest := line.drop (pos1 + 1)
    let restCap := endI - (pos1 + 1)
    match st.cmdcond with
    | [] => cmdSwitch pbfuel env st cmd rest restCap
    | top :: tl =>
      if st.condstate = 0 then
        if cmd = .IF || cmd = .IFDEF || cmd = .IFNDEF then
          some (0, { st with ifdepth := st.ifdepth + 1 })
        else if cmd = .ELSE then
          if 0 < st.ifdepth then some (0, st)
          else some (0, { st with condstate := cNot top.ifstate,
                                  cmdcond := ⟨.COND_ELSE, top.ifstate⟩ :: tl })
        else if cmd = .ENDIF then
          if 0 < st.ifdepth then some (0, { st with ifdepth := st.ifdepth - 1 })
          else some (0, { st with cmdcond := tl, condstate := 1 })
        else some (0, st)
      else if top.state = .COND_IF then
        if cmd = .ELIF then
          match evalifexpr pbfuel env st.macros rest restCap with
          | none => none
          | some (r, v, _) =>
            if !(r = 0) then some (-1, st)
            else
              let st' := { st with condstate := toCInt v,
                                   cmdcond := ⟨.COND_IF, toCInt v⟩ :: tl }
              if st'.condstate = 0 then some (0, st')
              else cmdSwitch pbfuel env st' cmd rest restCap
        else if cmd = .ELSE then
          let st' := { st with condstate := cNot top.ifstate,
                               cmdcond := ⟨.COND_ELSE, top.ifstate⟩ :: tl }
          if st'.condstate = 0 then some (0, st')
          else cmdSwitch pbfuel env st' cmd rest restCap
        else if cmd = .ENDIF then
          let st' := { st with cmdcond := tl, condstate := 1 }
          if st'.condstate = 0 then some (0, st')
          else cmdSwitch pbfuel env st' cmd rest restCap
        else
          if st.condstate = 0 then some (0, st)
          else cmdSwitch pbfuel env st cmd rest restCap
      else
        let st' := if cmd = .ENDIF then { st with cmdcond := tl, condstate := 1 } else st
        if cmd = .ELIF || cmd = .ELSE then some (-1, st')
        else if st'.condstate = 0 then some (0, st')
        else cmdSwitch pbfuel env st' cmd rest restCap

/-! ## Concrete fixtures used by the theorems -/

/-- An environment with no open input stream and a failing include
opener. -/
def nullEnv : Env := ⟨none, fun _ _ => -1⟩

/-- `n` copies of the text `E()`. -/
def reps : Nat → List Char
  | 0 => []
  | n + 1 => 'E' :: '(' :: ')' :: reps n

/-- The macro table `#define E()` / `#define G E()E()…E()G` (one
hundred `E()` units before the trailing `G`), built through `addMacro`
itself. -/
def c8macros : List Macro :=
  (addMacro [] (addMacro [] [] ("E()".toList)).2 ('G' :: ' ' :: (reps 100 ++ ['G']))).2

/-! ## Theorems for the claims -/

/-- C1.  The claim asserts standard C precedence and left-associativity
(`1+2*3 = 7`, `2*3+1 = 7`, `1-2-3 = -4`, `1<<2+3 = 32`).  The code
hands every binary operator's right operand to `parse_ternary`, so the
whole rest of the expression binds to the right: `2*3+1` evaluates to
`2*(3+1) = 8` and `1-2-3` to `1-(2-3) = 2`, against the grammar in the
file's own header comment.  This theorem evaluates the embedded code at
those inputs. -/
theorem c1_precedence_eval :
    evaluate_expression ("1+2*3".toList) = (7, ⟨EE_OK, false⟩) ∧
    evaluate_expression ("2*3+1".toList) = (8, ⟨EE_OK, false⟩) ∧
    evaluate_expression ("1-2-3".toList) = (2, ⟨EE_OK, false⟩) ∧
    evaluate_expression ("1<<2+3".toList) = (32, ⟨EE_OK, false⟩) := by
  decide

/-- C2 counterexample.  The claim says that in `0 && 1/0` the right
operand is not evaluated and the error code stays `EE_OK`; in the code
the right operand is parsed and evaluated unconditionally, so the
division by zero fires and the error code becomes `EE_DIVBYZERO`. -/
theorem c2_counterexample :
    (evaluate_expression ("0&&1/0".toList)).2.err = EE_DIVBYZERO ∧
    ¬(EE_DIVBYZERO = EE_OK) := by
  decide

/-- C2 amended.  `&&` and `||` produce the correct C logical value of
their operands, but the right operand is always parsed and evaluated
even when the left operand already decides the result, so an error in
the short-circuited-away operand is raised: `0&&1/0` evaluates to 0
with `expr_error = EE_DIVBYZERO`, and `1||1/0` evaluates to 1 with
`expr_error = EE_DIVBYZERO`. -/
theorem c2_amended :
    evaluate_expression ("0&&1/0".toList) = (0, ⟨EE_DIVBYZERO, false⟩) ∧
    evaluate_expression ("1||1/0".toList) = (1, ⟨EE_DIVBYZERO, false⟩) := by
  decide

/-- C3.  Division by zero behaves as the claim says: `1/0` sets
`EE_DIVBYZERO`, the sub-term evaluates to 0, and `evalifexpr` on
`1/0` is a hard error (−1).  But a modulo by zero is executed with no
check at all (`result %= rhs` in `parse_multiplicative`): for `1%0`
the embedded code reaches the undefined modulo-by-zero operation (the
`ub` flag; the C binary traps there) and no error code is ever set,
against the claim's `#if 1%0` case. -/
theorem c3_modulo_by_zero_ub :
    evaluate_expression ("1/0".toList) = (0, ⟨EE_DIVBYZERO, false⟩) ∧
    evalifexpr 9 nullEnv [] ("1/0".toList) 40 = some (-1, 0, ⟨EE_DIVBYZERO, false⟩) ∧
    evaluate_expression ("1%0".toList) = (0, ⟨EE_OK, true⟩) := by
  decide

/-- C9 counterexample.  The claim says `'\n'` evaluates to 10 and an
unrecognized escape sequence sets an error; `parse_char_constant` does
no escape processing, so the four-character text `'\n'` evaluates to 92
(the backslash itself, read as the constant's single character) with no
error set. -/
theorem c9_counterexample :
    evaluate_expression ('\'' :: '\\' :: 'n' :: '\'' :: []) = (92, ⟨EE_OK, false⟩) ∧
    ¬((92 : Int) = 10) := by
  decide

/-- C9 amended.  `parse_char_constant` performs no escape processing:
for every backslash escape `'\c…'` it yields 92, the code of the
backslash itself (the character immediately after the opening quote),
sets no error, and leaves the cursor after that character (consuming
one more quote only if the escaped character itself was `'`). -/
theorem c9_amended (c : Char) (rest : List Char) (st : ESt) :
    parse_char_constant ('\'' :: '\\' :: c :: rest) st =
      ⟨92, if c = '\'' then rest else c :: rest, st⟩ := by
  by_cases hc : c = '\''
  · subst hc; rfl
  · have h92 : signedChar '\\' = 92 := by decide
    simp [parse_char_constant, peekc, hc, h92]

/-- When a name is already present, appending entries does not change
its lookup (`findMacro` returns the first match). -/
theorem findMacro_append_left (t t2 : List Macro) (nm : List Char)
    (h : (findMacro t nm).isSome = true) : findMacro (t ++ t2) nm = findMacro t nm := by
  induction t with
  | nil => simp [findMacro] at h
  | cons m r ih =>
    by_cases hm : m.name = nm
    · simp [findMacro, hm]
    · simp only [findMacro, if_neg hm] at h
      simpa only [List.cons_append, findMacro, if_neg hm] using ih h

/-- Appending a single entry with a different name keeps an undefined
name undefined. -/
theorem findMacro_append_single (t : List Macro) (m : Macro) (nm : List Char)
    (h : findMacro t nm = none) (hne : ¬(m.name = nm)) :
    findMacro (t ++ [m]) nm = none := by
  induction t with
  | nil => simp [findMacro, hne]
  | cons a r ih =>
    by_cases ha : a.name = nm
    · simp [findMacro, ha] at h
    · simp only [findMacro, if_neg ha] at h
      simpa only [List.cons_append, findMacro, if_neg ha] using ih h

/-- `addMacro` either leaves the table untouched (parse error or banned
name) or appends exactly one entry, whose name is not banned, at the
end. -/
theorem addMacro_shape (banned : List (List Char)) (table : List Macro) (buf : List Char) :
    (addMacro banned table buf).2 = table ∨
    ∃ m : Macro, isMacroBanned banned m.name = false ∧
      (addMacro banned table buf).2 = table ++ [m] := by
  unfold addMacro
  split
  · exact Or.inl rfl
  · rename_i name type rest heq
    by_cases hb : isMacroBanned banned name = true
    · simp [hb]
    · simp only [hb, if_false, Bool.false_eq_true]
      split
      · exact Or.inl rfl
      · rename_i params s2 heq2
        exact Or.inr ⟨⟨name, params, if skipws s2 = [] then none else some (skipws s2)⟩,
          by simpa using hb, rfl⟩

/-- A banned name that is undefined stays undefined across any
`addMacro`. -/
theorem addMacro_not_defined (banned : List (List Char)) (table : List Macro)
    (buf nm : List Char) (hb : isMacroBanned banned nm = true)
    (h : isdefinedMacro table nm = false) :
    isdefinedMacro (addMacro banned table buf).2 nm = false := by
  rcases addMacro_shape banned table buf with he | ⟨m, hm, he⟩
  · rw [he]; exact h
  · rw [he]
    have hne : ¬(m.name = nm) := by
      intro hEq
      rw [hEq, hb] at hm
      cases hm
    have hnone : findMacro table nm = none := by
      revert h
      unfold isdefinedMacro
      cases findMacro table nm <;> simp
    unfold isdefinedMacro
    rw [findMacro_append_single table m nm hnone hne]
    rfl

/-- `deleteMacro` never defines a name. -/
theorem deleteMacro_not_defined (table : List Macro) (nm nm2 : List Char)
    (h : isdefinedMacro table nm = false) :
    isdefinedMacro (deleteMacro table nm2).2 nm = false := by
  induction table with
  | nil => exact h
  | cons m r ih =>
    unfold isdefinedMacro findMacro at h
    by_cases hm : m.name = nm
    · simp [hm] at h
    · rw [if_neg hm] at h
      unfold deleteMacro
      by_cases h2 : m.name = nm2
      · rw [if_pos h2]
        exact h
      · rw [if_neg h2]
        have := ih h
        unfold isdefinedMacro findMacro
        rw [if_neg hm]
        exact this

/-- A banned, undefined name stays undefined under any sequence of
define/undef operations. -/
theorem applyOps_not_defined (banned : List (List Char)) (nm : List Char)
    (hb : isMacroBanned banned nm = true) :
    ∀ (ops : List MOp) (table : List Macro), isdefinedMacro table nm = false →
      isdefinedMacro (applyOps banned table ops) nm = false := by
  intro ops
  induction ops with
  | nil => intro table h; exact h
  | cons op rest ih =>
    intro table h
    cases op with
    | defn buf => exact ih _ (addMacro_not_defined banned table buf nm hb h)
    | undef n2 => exact ih _ (deleteMacro_not_defined table nm n2 h)

/-- C4 counterexample.  Define `N` with body `B1`, then redefine it
with body `B2`: `findMacro` still yields the body `B1` — the second
definition did not replace the first, against the claim that the later
lookup and expansion use `B2`. -/
theorem c4_counterexample :
    ((findMacro (addMacro [] (addMacro [] [] ("N B1".toList)).2 ("N B2".toList)).2
        ('N' :: [])).map Macro.replace = some (some ('B' :: '1' :: []))) ∧
    ¬(('B' :: '1' :: []) = ('B' :: '2' :: [])) := by
  decide

/-- C4 amended.  A second `addMacro` for an already defined name
appends a second table entry without removing, replacing, or comparing
the earlier one; since `findMacro` returns the first match, lookup and
expansion keep using the FIRST definition — for every banned set,
table, define body and defined name, lookup after the redefinition is
unchanged. -/
theorem c4_amended (banned : List (List Char)) (table : List Macro) (buf nm : List Char)
    (h : isdefinedMacro table nm = true) :
    findMacro (addMacro banned table buf).2 nm = findMacro table nm := by
  rcases addMacro_shape banned table buf with he | ⟨m, _, he⟩
  · rw [he]
  · rw [he, findMacro_append_left]
    exact h

/-- C4 witness: after defining `N B1`, redefining with `N B2` leaves
`findMacro` for `N` unchanged. -/
theorem c4_amended_witness :
    isdefinedMacro (addMacro [] [] ("N B1".toList)).2 ('N' :: []) = true ∧
    findMacro (addMacro [] (addMacro [] [] ("N B1".toList)).2 ("N B2".toList)).2 ('N' :: []) =
      findMacro (addMacro [] [] ("N B1".toList)).2 ('N' :: []) :=
  ⟨by decide, c4_amended [] _ _ _ (by decide)⟩

/-- C5 counterexample.  `addMacro` can define the same name twice, and
`banMacro` deletes only the first matching entry; after `#define N 1`,
`#define N 2`, `banMacro N`, the name is still defined — against the
claim that after `banMacro(N)` the name stays undefined. -/
theorem c5_counterexample :
    isdefinedMacro (banMacro [] (addMacro [] (addMacro [] [] ("N 1".toList)).2
        ("N 2".toList)).2 ('N' :: [])).2.2 ('N' :: []) = true := by
  decide

/-- C5 amended.  `banMacro` removes only the FIRST existing definition
of the name (via `deleteMacro`); once a name is on the banned list,
every `addMacro` whose parsed name is that name returns success without
creating an entry, and if the name is (or has become) undefined it
stays undefined under every later sequence of define/undef operations. -/
theorem c5_amended (banned : List (List Char)) (table : List Macro) (nm : List Char)
    (hb : isMacroBanned banned nm = true) :
    (∀ buf type rest, parseMacroName buf = some (nm, type, rest) →
        addMacro banned table buf = (0, table)) ∧
    (isdefinedMacro table nm = false →
        ∀ ops : List MOp, isdefinedMacro (applyOps banned table ops) nm = false) := by
  constructor
  · intro buf type rest hp
    unfold addMacro
    rw [hp]
    simp [hb]
  · intro h0 ops
    exact applyOps_not_defined banned nm hb ops table h0

/-- C5 witness: with `N` banned and the table empty, a define of `N` is
a no-op and `N` stays undefined under later operations. -/
theorem c5_amended_witness :
    (∀ buf type rest, parseMacroName buf = some (('N' :: []), type, rest) →
        addMacro [('N' :: [])] [] buf = (0, [])) ∧
    (isdefinedMacro ([] : List Macro) ('N' :: []) = false →
        ∀ ops : List MOp, isdefinedMacro (applyOps [('N' :: [])] [] ops) ('N' :: []) = false) :=
  c5_amended [('N' :: [])] [] ('N' :: []) (by decide)

/-- `strlen` from `i` on a NUL-free string is just the remaining
length. -/
theorem strlenFrom_no_nul (l : List Char) (i : Nat) (h : ∀ c ∈ l, ¬(c = NUL)) :
    strlenFrom l i = l.length - i := by
  unfold strlenFrom
  rw [List.takeWhile_eq_self_iff.mpr, List.length_drop]
  intro c hc
  simpa using h c (List.mem_of_mem_drop hc)

/-- One step of the keyword scan. -/
theorem scanCmdEnd_more (line : List Char) (endI f p : Nat) (hf : 0 < f) (h1 : p < endI)
    (h2 : ¬(charAt line p = ' ')) (h3 : ¬(charAt line p = '\n'))
    (h4 : ¬(charAt line p = NUL)) :
    scanCmdEnd line endI f p = scanCmdEnd line endI (f - 1) (p + 1) := by
  obtain ⟨g, rfl⟩ : ∃ g, f = g + 1 := ⟨f - 1, by omega⟩
  simp [scanCmdEnd, h1, h2, h3, h4]

/-- The keyword scan halts at the buffer end, a blank, a newline or
NUL. -/
theorem scanCmdEnd_halt (line : List Char) (endI f p : Nat)
    (h : ¬(p < endI) ∨ charAt line p = ' ' ∨ charAt line p = '\n' ∨ charAt line p = NUL) :
    scanCmdEnd line endI f p = p := by
  cases f with
  | zero => rfl
  | succ g =>
    unfold scanCmdEnd
    rcases h with h | h | h | h <;> simp [h]

/-- C6.  While the active flag is false and a condition frame is open,
`processcmdline` never evaluates a conditional expression: an `#if`,
`#ifdef` or `#ifndef` whose directive text is an arbitrary (possibly
malformed) string only increments the skip-depth counter and returns
success, an `#endif` at positive skip depth only decrements the
counter, and an `#endif` at skip depth 0 pops the frame and sets the
active flag back to true. -/
theorem c6_skip_mode (pbfuel : Nat) (env : Env) (st : CmdSt) (top : CmdCond)
    (tl : List CmdCond) (hc : st.cmdcond = top :: tl) (hs : st.condstate = 0)
    (t : List Char) (ht : ∀ c ∈ t, ¬(c = NUL)) (size : Nat)
    (hsize : t.length + 10 ≤ size) :
    processcmdline pbfuel env st ('#' :: 'i' :: 'f' :: ' ' :: t) size =
      some (0, { st with ifdepth := st.ifdepth + 1 }) ∧
    processcmdline pbfuel env st ('#' :: 'i' :: 'f' :: 'd' :: 'e' :: 'f' :: ' ' :: t) size =
      some (0, { st with ifdepth := st.ifdepth + 1 }) ∧
    processcmdline pbfuel env st ('#' :: 'i' :: 'f' :: 'n' :: 'd' :: 'e' :: 'f' :: ' ' :: t)
        size = some (0, { st with ifdepth := st.ifdepth + 1 }) ∧
    (0 < st.ifdepth → processcmdline pbfuel env st ("#endif".toList) size =
      some (0, { st with ifdepth := st.ifdepth - 1 })) ∧
    (st.ifdepth = 0 → processcmdline pbfuel env st ("#endif".toList) size =
      some (0, { st with cmdcond := tl, condstate := 1 })) := by
  have hnul : ∀ (pre : List Char), (∀ c ∈ pre, ¬(c = NUL)) →
      strlenFrom (pre ++ t) 1 = pre.length + t.length - 1 := by
    intro pre hpre
    rw [strlenFrom_no_nul]
    · simp
    · intro c hcm
      rcases List.mem_append.mp hcm with hcm | hcm
      · exact hpre c hcm
      · exact ht c hcm
  refine ⟨?_, ?_, ?_, ?_, ?_⟩
  · unfold processcmdline
    have hlen : strlenFrom ('#' :: 'i' :: 'f' :: ' ' :: t) 1 = 3 + t.length := by
      have := hnul ['#', 'i', 'f', ' '] (by decide)
      simpa [Nat.add_comm] using this
    have e1 : charAt ('#' :: 'i' :: 'f' :: ' ' :: t) 1 = 'i' := rfl
    have e2 : charAt ('#' :: 'i' :: 'f' :: ' ' :: t) (1 + 1) = 'f' := rfl
    have e3 : charAt ('#' :: 'i' :: 'f' :: ' ' :: t) (1 + 1 + 1) = ' ' := rfl
    have hscan : scanCmdEnd ('#' :: 'i' :: 'f' :: ' ' :: t) (size - 1) (size + 2) 1 = 3 := by
      rw [scanCmdEnd_more _ _ _ _ (by omega) (by omega) (by rw [e1]; decide)
            (by rw [e1]; decide) (by rw [e1]; decide),
          scanCmdEnd_more _ _ _ _ (by omega) (by omega) (by rw [e2]; decide)
            (by rw [e2]; decide) (by rw [e2]; decide)]
      exact scanCmdEnd_halt _ _ _ _ (Or.inr (Or.inl e3))
    have hcmd : getcmdtype (seg ('#' :: 'i' :: 'f' :: ' ' :: t) 1 3) = Cmdtoken.IF := by
      rw [show seg ('#' :: 'i' :: 'f' :: ' ' :: t) 1 3 = ['i', 'f'] from rfl]
      decide
    have hsp : ¬(charAt ('#' :: 'i' :: 'f' :: ' ' :: t) 1 = ' ') := by rw [e1]; decide
    have h1 : ¬(size - 1 ≤ 1) := by omega
    have h2 : ¬(size - 1 ≤ 1 + (3 + t.length)) := by omega
    simp [hlen, hsp, hscan, hcmd, hc, hs, h1, h2]
  · unfold processcmdline
    have hlen : strlenFrom ('#' :: 'i' :: 'f' :: 'd' :: 'e' :: 'f' :: ' ' :: t) 1 =
        6 + t.length := by
      have := hnul ['#', 'i', 'f', 'd', 'e', 'f', ' '] (by decide)
      simpa [Nat.add_comm] using this
    have e1 : charAt ('#' :: 'i' :: 'f' :: 'd' :: 'e' :: 'f' :: ' ' :: t) 1 = 'i' := rfl
    have e2 : charAt ('#' :: 'i' :: 'f' :: 'd' :: 'e' :: 'f' :: ' ' :: t) (1 + 1) = 'f' := rfl
    have e3 : charAt ('#' :: 'i' :: 'f' :: 'd' :: 'e' :: 'f' :: ' ' :: t) (1 + 1 + 1) = 'd' :=
      rfl
    have e4 : charAt ('#' :: 'i' :: 'f' :: 'd' :: 'e' :: 'f' :: ' ' :: t) (1 + 1 + 1 + 1) =
        'e' := rfl
    have e5 : charAt ('#' :: 'i' :: 'f' :: 'd' :: 'e' :: 'f' :: ' ' :: t)
        (1 + 1 + 1 + 1 + 1) = 'f' := rfl
    have e6 : charAt ('#' :: 'i' :: 'f' :: 'd' :: 'e' :: 'f' :: ' ' :: t)
        (1 + 1 + 1 + 1 + 1 + 1) = ' ' := rfl
    have hscan : scanCmdEnd ('#' :: 'i' :: 'f' :: 'd' :: 'e' :: 'f' :: ' ' :: t) (size - 1)
        (size + 2) 1 = 6 := by
      rw [scanCmdEnd_more _ _ _ _ (by omega) (by omega) (by rw [e1]; decide)
            (by rw [e1]; decide) (by rw [e1]; decide),
          scanCmdEnd_more _ _ _ _ (by omega) (by omega) (by rw [e2]; decide)
            (by rw [e2]; decide) (by rw [e2]; decide),
          scanCmdEnd_more _ _ _ _ (by omega) (by omega) (by rw [e3]; decide)
            (by rw [e3]; decide) (by rw [e3]; decide),
          scanCmdEnd_more _ _ _ _ (by omega) (by omega) (by rw [e4]; decide)
            (by rw [e4]; decide) (by rw [e4]; decide),
          scanCmdEnd_more _ _ _ _ (by omega) (by omega) (by rw [e5]; decide)
            (by rw [e5]; decide) (by rw [e5]; decide)]
      exact scanCmdEnd_halt _ _ _ _ (Or.inr (Or.inl e6))
    have hcmd : getcmdtype (seg ('#' :: 'i' :: 'f' :: 'd' :: 'e' :: 'f' :: ' ' :: t) 1 6) =
        Cmdtoken.IFDEF := by
      rw [show seg ('#' :: 'i' :: 'f' :: 'd' :: 'e' :: 'f' :: ' ' :: t) 1 6 =
            ['i', 'f', 'd', 'e', 'f'] from rfl]
      decide
    have hsp : ¬(charAt ('#' :: 'i' :: 'f' :: 'd' :: 'e' :: 'f' :: ' ' :: t) 1 = ' ') := by
      rw [e1]; decide
    have h1 : ¬(size - 1 ≤ 1) := by omega
    have h2 : ¬(size - 1 ≤ 1 + (6 + t.length)) := by omega
    simp [hlen, hsp, hscan, hcmd, hc, hs, h1, h2]
  · unfold processcmdline
    have hlen : strlenFrom ('#' :: 'i' :: 'f' :: 'n' :: 'd' :: 'e' :: 'f' :: ' ' :: t) 1 =
        7 + t.length := by
      have := hnul ['#', 'i', 'f', 'n', 'd', 'e', 'f', ' '] (by decide)
      simpa [Nat.add_comm] using this
    have e1 : charAt ('#' :: 'i' :: 'f' :: 'n' :: 'd' :: 'e' :: 'f' :: ' ' :: t) 1 = 'i' :=
      rfl
    have e2 : charAt ('#' :: 'i' :: 'f' :: 'n' :: 'd' :: 'e' :: 'f' :: ' ' :: t) (1 + 1) =
        'f' := rfl
    have e3 : charAt ('#' :: 'i' :: 'f' :: 'n' :: 'd' :: 'e' :: 'f' :: ' ' :: t)
        (1 + 1 + 1) = 'n' := rfl
    have e4 : charAt ('#' :: 'i' :: 'f' :: 'n' :: 'd' :: 'e' :: 'f' :: ' ' :: t)
        (1 + 1 + 1 + 1) = 'd' := rfl
    have e5 : charAt ('#' :: 'i' :: 'f' :: 'n' :: 'd' :: 'e' :: 'f' :: ' ' :: t)
        (1 + 1 + 1 + 1 + 1) = 'e' := rfl
    have e6 : charAt ('#' :: 'i' :: 'f' :: 'n' :: 'd' :: 'e' :: 'f' :: ' ' :: t)
        (1 + 1 + 1 + 1 + 1 + 1) = 'f' := rfl
    have e7 : charAt ('#' :: 'i' :: 'f' :: 'n' :: 'd' :: 'e' :: 'f' :: ' ' :: t)
        (1 + 1 + 1 + 1 + 1 + 1 + 1) = ' ' := rfl
    have hscan : scanCmdEnd ('#' :: 'i' :: 'f' :: 'n' :: 'd' :: 'e' :: 'f' :: ' ' :: t)
        (size - 1) (size + 2) 1 = 7 := by
      rw [scanCmdEnd_more _ _ _ _ (by omega) (by omega) (by rw [e1]; decide)
            (by rw [e1]; decide) (by rw [e1]; decide),
          scanCmdEnd_more _ _ _ _ (by omega) (by omega) (by rw [e2]; decide)
            (by rw [e2]; decide) (by rw [e2]; decide),
          scanCmdEnd_more _ _ _ _ (by omega) (by omega) (by rw [e3]; decide)
            (by rw [e3]; decide) (by rw [e3]; decide),
          scanCmdEnd_more _ _ _ _ (by omega) (by omega) (by rw [e4]; decide)
            (by rw [e4]; decide) (by rw [e4]; decide),
          scanCmdEnd_more _ _ _ _ (by omega) (by omega) (by rw [e5]; decide)
            (by rw [e5]; decide) (by rw [e5]; decide),
          scanCmdEnd_more _ _ _ _ (by omega) (by omega) (by rw [e6]; decide)
            (by rw [e6]; decide) (by rw [e6]; decide)]
      exact scanCmdEnd_halt _ _ _ _ (Or.inr (Or.inl e7))
    have hcmd : getcmdtype (seg ('#' :: 'i' :: 'f' :: 'n' :: 'd' :: 'e' :: 'f' :: ' ' :: t)
        1 7) = Cmdtoken.IFNDEF := by
      rw [show seg ('#' :: 'i' :: 'f' :: 'n' :: 'd' :: 'e' :: 'f' :: ' ' :: t) 1 7 =
            ['i', 'f', 'n', 'd', 'e', 'f'] from rfl]
      decide
    have hsp : ¬(charAt ('#' :: 'i' :: 'f' :: 'n' :: 'd' :: 'e' :: 'f' :: ' ' :: t) 1 =
        ' ') := by rw [e1]; decide
    have h1 : ¬(size - 1 ≤ 1) := by omega
    have h2 : ¬(size - 1 ≤ 1 + (7 + t.length)) := by omega
    simp [hlen, hsp, hscan, hcmd, hc, hs, h1, h2]
  · intro hd
    unfold processcmdline
    have hscan : scanCmdEnd ['#', 'e', 'n', 'd', 'i', 'f'] (size - 1) (size + 2) 1 = 6 := by
      rw [scanCmdEnd_more _ _ _ _ (by omega) (by omega) (by decide) (by decide) (by decide),
          scanCmdEnd_more _ _ _ _ (by omega) (by omega) (by decide) (by decide) (by decide),
          scanCmdEnd_more _ _ _ _ (by omega) (by omega) (by decide) (by decide) (by decide),
          scanCmdEnd_more _ _ _ _ (by omega) (by omega) (by decide) (by decide) (by decide),
          scanCmdEnd_more _ _ _ _ (by omega) (by omega) (by decide) (by decide) (by decide)]
      exact scanCmdEnd_halt _ _ _ _ (Or.inr (Or.inr (Or.inr (by decide))))
    have hlen5 : strlenFrom ['#', 'e', 'n', 'd', 'i', 'f'] 1 = 5 := rfl
    have h1 : ¬(size - 1 ≤ 1) := by omega
    have h2 : ¬(size - 1 ≤ 1 + 5) := by omega
    have h3 : ¬(size ≤ 7) := by omega
    have h4 : ¬(size ≤ 2) := by omega
    simp [hscan, hlen5, hc, hs, h1, h2, h3, h4, hd,
      show ¬(charAt ['#', 'e', 'n', 'd', 'i', 'f'] 1 = ' ') from by decide,
      show getcmdtype (seg ['#', 'e', 'n', 'd', 'i', 'f'] 1 6) = Cmdtoken.ENDIF from by decide]
  · intro hd
    unfold processcmdline
    have hscan : scanCmdEnd ['#', 'e', 'n', 'd', 'i', 'f'] (size - 1) (size + 2) 1 = 6 := by
      rw [scanCmdEnd_more _ _ _ _ (by omega) (by omega) (by decide) (by decide) (by decide),
          scanCmdEnd_more _ _ _ _ (by omega) (by omega) (by decide) (by decide) (by decide),
          scanCmdEnd_more _ _ _ _ (by omega) (by omega) (by decide) (by decide) (by decide),
          scanCmdEnd_more _ _ _ _ (by omega) (by omega) (by decide) (by decide) (by decide),
          scanCmdEnd_more _ _ _ _ (by omega) (by omega) (by decide) (by decide) (by decide)]
      exact scanCmdEnd_halt _ _ _ _ (Or.inr (Or.inr (Or.inr (by decide))))
    have hlen5 : strlenFrom ['#', 'e', 'n', 'd', 'i', 'f'] 1 = 5 := rfl
    have h1 : ¬(size - 1 ≤ 1) := by omega
    have h2 : ¬(size - 1 ≤ 1 + 5) := by omega
    have h3 : ¬(size ≤ 7) := by omega
    have h4 : ¬(size ≤ 2) := by omega
    simp [hscan, hlen5, hc, hs, h1, h2, h3, h4, hd,
      show ¬(charAt ['#', 'e', 'n', 'd', 'i', 'f'] 1 = ' ') from by decide,
      show getcmdtype (seg ['#', 'e', 'n', 'd', 'i', 'f'] 1 6) = Cmdtoken.ENDIF from by decide]

/-- C6 witness: a skipped frame, a malformed `#if` text, an `#endif` at
skip depth 0. -/
theorem c6_skip_mode_witness :
    processcmdline 3 nullEnv ⟨[⟨Ccstate.COND_IF, 0⟩], 0, 0, [], []⟩
        ('#' :: 'i' :: 'f' :: ' ' :: [')', '(']) 20 =
      some (0, ⟨[⟨Ccstate.COND_IF, 0⟩], 0, 1, [], []⟩) :=
  (c6_skip_mode 3 nullEnv ⟨[⟨Ccstate.COND_IF, 0⟩], 0, 0, [], []⟩ ⟨Ccstate.COND_IF, 0⟩ []
    rfl rfl [')', '('] (by decide) 20 (by norm_num)).1

/-- C7 counterexample.  An `#endif` with no open condition frame is
not detected: `processcmdline` falls through to the keyword switch,
whose `ENDIF` arm does nothing, and returns 0 with the state unchanged
— against the claim that an unmatched `#endif` returns −1. -/
theorem c7_counterexample :
    processcmdline 5 nullEnv ⟨[], 1, 0, [], []⟩ ("#endif".toList) 40 =
      some (0, ⟨[], 1, 0, [], []⟩) := by
  rfl

/-- C7 amended.  While the top frame is in the ELSE state AND the
active flag is set, an `#elif` or a second `#else` is a hard error
(−1, no expression evaluated, state unchanged); an `#endif` with no
open condition frame, however, is silently accepted and returns 0 with
the state unchanged.  (While content is being skipped, `#elif`/`#else`
after an `#else` are ignored with success — the error is only raised
on the active path.) -/
theorem c7_amended (pbfuel : Nat) (env : Env) (st : CmdSt) (top : CmdCond)
    (tl : List CmdCond) (hc : st.cmdcond = top :: tl)
    (hstate : top.state = Ccstate.COND_ELSE) (hact : ¬(st.condstate = 0)) :
    processcmdline pbfuel env st ("#elif 1".toList) 40 = some (-1, st) ∧
    processcmdline pbfuel env st ("#else".toList) 40 = some (-1, st) ∧
    (∀ st2 : CmdSt, st2.cmdcond = [] →
      processcmdline pbfuel env st2 ("#endif".toList) 40 = some (0, st2)) := by
  refine ⟨?_, ?_, ?_⟩
  · unfold processcmdline
    rw [hc]
    simp [hstate, hact, scanCmdEnd, getcmdtype, cmdnames, seg, charAt, strlenFrom, NUL]
  · unfold processcmdline
    rw [hc]
    simp [hstate, hact, scanCmdEnd, getcmdtype, cmdnames, seg, charAt, strlenFrom, NUL]
  · intro st2 hc2
    unfold processcmdline
    rw [hc2]
    simp [scanCmdEnd, getcmdtype, cmdnames, seg, charAt, strlenFrom, NUL, cmdSwitch]

/-- C7 witness: a concrete ELSE-state frame with the active flag set,
and a concrete empty stack. -/
theorem c7_amended_witness :
    (processcmdline 5 nullEnv ⟨[⟨Ccstate.COND_ELSE, 0⟩], 1, 0, [], []⟩
        ("#elif 1".toList) 40 = some (-1, ⟨[⟨Ccstate.COND_ELSE, 0⟩], 1, 0, [], []⟩)) ∧
    (processcmdline 5 nullEnv ⟨[⟨Ccstate.COND_ELSE, 0⟩], 1, 0, [], []⟩
        ("#else".toList) 40 = some (-1, ⟨[⟨Ccstate.COND_ELSE, 0⟩], 1, 0, [], []⟩)) ∧
    (∀ st2 : CmdSt, st2.cmdcond = [] →
      processcmdline 5 nullEnv st2 ("#endif".toList) 40 = some (0, st2)) :=
  c7_amended 5 nullEnv ⟨[⟨Ccstate.COND_ELSE, 0⟩], 1, 0, [], []⟩ ⟨Ccstate.COND_ELSE, 0⟩ []
    rfl rfl (by decide)

/-- C10.  `evalifexpr` first deletes every whitespace character of its
input with `stripspaces` (blind to character and string constants) and
everything afterwards — `check_defined`, conditional-mode macro
expansion, and expression parsing — sees only the stripped text, so two
expression texts with the same `stripspaces` image produce identical
results (same return code, value, and error state) for every fuel,
environment, macro table and capacity. -/
theorem c10_whitespace_invariance (pbfuel : Nat) (env : Env) (macros : List Macro)
    (cap : Nat) (s1 s2 : List Char) (h : stripspaces s1 = stripspaces s2) :
    evalifexpr pbfuel env macros s1 cap = evalifexpr pbfuel env macros s2 cap := by
  unfold evalifexpr
  rw [h]

/-- C10 witness: ` 1 + 1 ` and `1+1` differ only in whitespace and
evaluate identically. -/
theorem c10_witness :
    stripspaces (" 1 + 1 ".toList) = stripspaces ("1+1".toList) ∧
    evalifexpr 9 nullEnv [] (" 1 + 1 ".toList) 40 = evalifexpr 9 nullEnv [] ("1+1".toList) 40 :=
  ⟨by decide, c10_whitespace_invariance 9 nullEnv [] 40 _ _ (by decide)⟩

end Stcpp

namespace Stcpp

theorem skipSpacesB_halt (content : List Char) (cap f p : Nat)
    (h : ¬(p < cap) ∨ isspace (charAt content p) = false) :
    skipSpacesB content cap f p = p := by
  cases f with
  | zero => rfl
  | succ g => rcases h with h | h <;> simp [skipSpacesB, h]

theorem identScanB_more (content : List Char) (cap start f p : Nat) (hf : 0 < f)
    (h1 : p ≤ cap) (h2 : isIdent (charAt content p) ((p : Int) - (start : Int)) = true) :
    identScanB content cap start f p = identScanB content cap start (f - 1) (p + 1) := by
  obtain ⟨g, rfl⟩ : ∃ g, f = g + 1 := ⟨f - 1, by omega⟩
  simp [identScanB, h1, h2]

theorem identScanB_halt (content : List Char) (cap start f p : Nat)
    (h : ¬(p ≤ cap) ∨ isIdent (charAt content p) ((p : Int) - (start : Int)) = false) :
    identScanB content cap start f p = p := by
  cases f with
  | zero => rfl
  | succ g => rcases h with h | h <;> simp [identScanB, h]

theorem findEndOfParameterLoop_halt (content : List Char) (cap f p : Nat)
    (h : ¬(p < cap) ∨ charAt content p = ',' ∨ charAt content p = ')') :
    findEndOfParameterLoop content cap f p = p := by
  cases f with
  | zero => rfl
  | succ g => rcases h with h | h | h <;> simp [findEndOfParameterLoop, h]

theorem rdhLoop_halt (startPos endm f : Nat) (content : List Char) (pp : Nat)
    (h : ¬(pp + 1 < endm)) :
    rdhLoop startPos endm f content pp = content := by
  cases f with
  | zero => rfl
  | succ g => simp [rdhLoop, h]

theorem argsLoop_E (rest : List Char) (f : Nat) (hf : 0 < f) :
    argsLoop ('E' :: '(' :: ')' :: rest) 310 f [none] 2 [] = ArgsRes.ok [] 3 := by
  obtain ⟨g, rfl⟩ : ∃ g, f = g + 1 := ⟨f - 1, by omega⟩
  unfold argsLoop
  rw [skipSpacesB_halt ('E' :: '(' :: ')' :: rest) 310 311 2 (Or.inr rfl)]
  have hfe : findEndOfParameter ('E' :: '(' :: ')' :: rest) 310 2 = 2 := by
    unfold findEndOfParameter
    exact findEndOfParameterLoop_halt ('E' :: '(' :: ')' :: rest) 310 312 2
      (Or.inr (Or.inr rfl))
  have h2 : charAt ('E' :: '(' :: ')' :: rest) 2 = ')' := rfl
  simp [hfe, h2]

theorem processMacro_E (cb : List Char → Nat → Option (Int × List Char)) (env : Env)
    (rest : List Char) (hlen : rest.length ≤ 301) :
    processMacro cb env c8macros ('E' :: '(' :: ')' :: rest) 310 0 false =
      some (0, rest, true) := by
  have hscan1 : identScanB ('E' :: '(' :: ')' :: rest) 310 0 312 0 = 1 := by
    rw [identScanB_more ('E' :: '(' :: ')' :: rest) 310 0 312 0 (by omega) (by omega) rfl]
    exact identScanB_halt ('E' :: '(' :: ')' :: rest) 310 0 311 1 (Or.inr rfl)
  have hfm : findMacro c8macros ['E'] = some ⟨['E'], some [none], none⟩ := by decide
  have hargs : argsLoop ('E' :: '(' :: ')' :: rest) 310 312 [none] 2 [] = ArgsRes.ok [] 3 :=
    argsLoop_E rest 312 (by omega)
  have hrb : replaceBuf ('E' :: '(' :: ')' :: rest) 310 0 3 [] = some (rest, 0) := by
    unfold replaceBuf
    dsimp only
    split
    · rename_i h
      exfalso
      simp at h
      omega
    · simp

  have hrdh : removeDoubleHash rest 0 0 = rest := rdhLoop_halt _ _ _ _ _ (by omega)
  unfold processMacro
  simp [hscan1, show seg ('E' :: '(' :: ')' :: rest) 0 1 = ['E'] from rfl, hfm,
    show charAt ('E' :: '(' :: ')' :: rest) 1 = '(' from rfl, hargs, hrb, hrdh]

theorem reps_length (n : Nat) : (reps n).length = 3 * n := by
  induction n with
  | zero => rfl
  | succ m ih => simp [reps, ih]; omega

theorem processMacro_G (cb : List Char → Nat → Option (Int × List Char)) (env : Env) :
    processMacro cb env c8macros ['G'] 310 0 false =
      some (301, reps 100 ++ ['G'], true) := rfl

set_option maxHeartbeats 2000000 in
theorem pbStep_E (cb : List Char → Nat → Option (Int × List Char)) (env : Env)
    (rest : List Char) (hlen : rest.length ≤ 301) (rc : Nat) (hrc : rc < 100) :
    pbStep cb env c8macros false 310 ('E' :: '(' :: ')' :: rest) 0 rc =
      PBStep.next rest 0 (rc + 1) := by
  have hss : skipSpacesB ('E' :: '(' :: ')' :: rest) 310 311 0 = 0 :=
    skipSpacesB_halt ('E' :: '(' :: ')' :: rest) 310 311 0 (Or.inr rfl)
  have hpm := processMacro_E cb env rest hlen
  unfold pbStep
  simp [hss, hpm, hrc, show charAt ('E' :: '(' :: ')' :: rest) 0 = 'E' from rfl]
  all_goals rfl

set_option maxHeartbeats 2000000 in
theorem pbStep_E_cap (cb : List Char → Nat → Option (Int × List Char)) (env : Env)
    (rest : List Char) (hlen : rest.length ≤ 301) :
    pbStep cb env c8macros false 310 ('E' :: '(' :: ')' :: rest) 0 100 =
      PBStep.next rest 0 0 := by
  have hss : skipSpacesB ('E' :: '(' :: ')' :: rest) 310 311 0 = 0 :=
    skipSpacesB_halt ('E' :: '(' :: ')' :: rest) 310 311 0 (Or.inr rfl)
  have hpm := processMacro_E cb env rest hlen
  unfold pbStep
  simp [hss, hpm, show charAt ('E' :: '(' :: ')' :: rest) 0 = 'E' from rfl]
  all_goals rfl

theorem pbStep_G (cb : List Char → Nat → Option (Int × List Char)) (env : Env)
    (rc : Nat) (hrc : rc < 100) :
    pbStep cb env c8macros false 310 ['G'] 0 rc =
      PBStep.next (reps 100 ++ ['G']) 0 (rc + 1) := by
  have hss : skipSpacesB ['G'] 310 311 0 = 0 :=
    skipSpacesB_halt ['G'] 310 311 0 (Or.inr rfl)
  have hpm := processMacro_G cb env
  unfold pbStep
  simp [hss, hpm, hrc, show charAt ['G'] 0 = 'G' from rfl]
  all_goals rfl

theorem processBufferF_succ (g : Nat) (env : Env) (macros : List Macro) (mode : Bool)
    (cap : Nat) (content : List Char) (pos rc : Nat) :
    processBufferF (g + 1) env macros mode cap content pos rc =
      match pbStep (fun c n => processBufferF g env macros false n c 0 0)
          env macros mode cap content pos rc with
      | .done ret c => some (ret, c)
      | .next c p r => processBufferF g env macros mode cap c p r
      | .fail => none := rfl

theorem c8_loop (f : Nat) : ∀ (env : Env) (m rc : Nat),
    (m = 0 ∧ rc = 0) ∨ (m + rc = 101 ∧ 1 ≤ rc ∧ rc ≤ 100) →
    processBufferF f env c8macros false 310 (reps m ++ ['G']) 0 rc = none := by
  induction f with
  | zero => intro env m rc _; rfl
  | succ g ih =>
    intro env m rc hinv
    rw [processBufferF_succ]
    rcases hinv with ⟨rfl, rfl⟩ | ⟨hsum, h1, h2⟩
    · rw [show reps 0 ++ ['G'] = ['G'] from rfl]
      rw [pbStep_G _ env 0 (by omega)]
      exact ih env 100 1 (Or.inr ⟨by omega, by omega, by omega⟩)
    · obtain ⟨m', rfl⟩ : ∃ m', m = m' + 1 := ⟨m - 1, by omega⟩
      rw [show reps (m' + 1) ++ ['G'] = 'E' :: '(' :: ')' :: (reps m' ++ ['G']) from rfl]
      have hlen : (reps m' ++ ['G']).length ≤ 301 := by
        simp [reps_length]; omega
      by_cases hrc : rc < 100
      · rw [pbStep_E _ env (reps m' ++ ['G']) hlen rc hrc]
        exact ih env m' (rc + 1) (Or.inr ⟨by omega, by omega, by omega⟩)
      · have hrc100 : rc = 100 := by omega
        subst hrc100
        have hm0 : m' = 0 := by omega
        subst hm0
        rw [pbStep_E_cap _ env (reps 0 ++ ['G']) hlen]
        exact ih env 0 0 (Or.inl ⟨rfl, rfl⟩)

/-- C8: `processBuffer` does not terminate on every input: with the
macro table `#define E()` and `#define G E()E()…E()G` (100 `E()`
units), buffer text `G` and capacity 310, the scan loop revisits its
initial state every 101 iterations, so no amount of fuel makes the
model return — the C loop runs forever, despite the 100-restart cap. -/
theorem c8_processBuffer_nonterminating (fuel : Nat) (env : Env) :
    processBuffer fuel env c8macros ("G".toList) 310 false = none := by
  rw [processBuffer, show ("G".toList) = reps 0 ++ ['G'] from rfl]
  exact c8_loop fuel env 0 0 (Or.inl ⟨rfl, rfl⟩)

end Stcpp
